import Mathlib

/-!
Verification development for the DatabaseKit transactional repository engine.

The definitions below are a shallow embedding of the two adapters
(`PostgresAdapter` in `src/adapters/postgres.adapter.ts` and `MongoAdapter`
in `src/adapters/mongo.adapter.ts`) together with the shared contracts.
JavaScript objects are modelled as association lists (`List (String × _)`)
with first-key-wins lookup; the object-spread operator `{...a, ...b}` is
modelled by `mergeAssoc`; `new Date()` is modelled by an explicit clock
argument `now : Nat`; thrown errors are modelled with `Except`.
-/

set_option autoImplicit false

namespace DatabaseKit

/-- A JSON-ish scalar value stored in a row/document or used in a filter.
`vDate n` models a JavaScript `Date` by its timestamp; `vNull` models both
SQL `NULL` and a missing document field (Mongo treats both alike). -/
inductive Value where
  | vNull : Value
  | vBool : Bool → Value
  | vInt : Int → Value
  | vStr : String → Value
  | vDate : Nat → Value
deriving DecidableEq, Repr

/-- First-match lookup in an association list, modelling JS property access. -/
def lookupKey {α : Type} : List (String × α) → String → Option α
  | [], _ => none
  | (k, v) :: rest, key => if k = key then some v else lookupKey rest key

/-- The keys of an association list. -/
def keysOf {α : Type} (l : List (String × α)) : List String :=
  l.map Prod.fst

/-- JS object spread `{...a, ...b}`: keys of `a` keep their position but take
`b`'s value when `b` also has the key; keys only in `b` are appended. -/
def mergeAssoc {α : Type} (a b : List (String × α)) : List (String × α) :=
  a.map (fun p =>
    match lookupKey b p.1 with
    | some w => (p.1, w)
    | none => p)
  ++ b.filter (fun p => (lookupKey a p.1).isNone)

/-- JS spread write `{...d, [f]: v}` used by the timestamp and soft-delete
overlays to set a single field. -/
def setField (d : List (String × Value)) (f : String) (v : Value) : List (String × Value) :=
  mergeAssoc d [(f, v)]

/-- JS `x || d` for an integer-valued `x` (`0` is the only falsy integer here). -/
def jsOrDefault (x dflt : Int) : Int :=
  if x = 0 then dflt else x

/-- A row (relational) or document (Mongo); missing keys read as `vNull`. -/
abbrev Row : Type := List (String × Value)

/-- Reading a field of a row; a missing field reads as null, which matches
both SQL columns and Mongo's missing-field-is-null convention. -/
def getField (r : Row) (k : String) : Value :=
  (lookupKey r k).getD .vNull

/-- The page-result envelope `{data, page, limit, total, pages}` from
`database.contracts.ts`. -/
structure PageResult (T : Type) where
  data : List T
  page : Int
  limit : Int
  total : Int
  pages : Int
deriving DecidableEq, Repr

/-- `shapePage` from `postgres.adapter.ts`:
`pages = Math.max(1, Math.ceil((total || 0) / (limit || 1)))`. -/
def shapePage {T : Type} (data : List T) (page limit total : Int) : PageResult T :=
  let pages : Int := max 1 (Int.ceil ((jsOrDefault total 0 : ℚ) / (jsOrDefault limit 1 : ℚ)))
  { data := data, page := page, limit := limit, total := total, pages := pages }

/-- `shapePage` from `mongo.adapter.ts` (textually identical computation). -/
def mongoShapePage {T : Type} (data : List T) (page limit total : Int) : PageResult T :=
  let pages : Int := max 1 (Int.ceil ((jsOrDefault total 0 : ℚ) / (jsOrDefault limit 1 : ℚ)))
  { data := data, page := page, limit := limit, total := total, pages := pages }

/-- The operator object of the declarative filter language
(`eq, ne, gt, gte, lt, lte, in, nin, like, isNull, isNotNull`); `none` models
an absent key (`undefined`), matching the presence checks of `applyFilter`.
`in` is a Lean keyword, so that operator is named `inList` here. -/
structure FilterOps where
  eq : Option Value := none
  ne : Option Value := none
  gt : Option Value := none
  gte : Option Value := none
  lt : Option Value := none
  lte : Option Value := none
  inList : Option (List Value) := none
  nin : Option (List Value) := none
  like : Option String := none
  isNull : Bool := false
  isNotNull : Bool := false
deriving DecidableEq, Repr

/-- A filter value: either a plain scalar (equality) or an operator object,
mirroring the `typeof value === 'object'` branch of `applyFilter`. -/
inductive FilterVal where
  | scalar : Value → FilterVal
  | ops : FilterOps → FilterVal
deriving DecidableEq, Repr

/-- A declarative filter object: field name to filter value. -/
abbrev Filter : Type := List (String × FilterVal)

/-- SQL comparison of two values; `none` when the values are incomparable
(which in SQL yields no match). -/
def valueCmp : Value → Value → Option Ordering
  | .vInt a, .vInt b => some (compare a b)
  | .vStr a, .vStr b => some (compare a b)
  | .vDate a, .vDate b => some (compare a b)
  | _, _ => none

/-- SQL equality `col = v` as produced by `qb.where(key, value)`:
comparison with NULL never matches. -/
def sqlScalarEq (rv v : Value) : Bool :=
  match v with
  | .vNull => false
  | _ => rv == v

/-- SQL `NOT col = v` as produced by `qb.whereNot`: NULL operands never match. -/
def sqlNe (rv v : Value) : Bool :=
  match rv, v with
  | .vNull, _ => false
  | _, .vNull => false
  | _, _ => rv != v

def sqlGt (rv v : Value) : Bool := valueCmp rv v == some .gt

def sqlGte (rv v : Value) : Bool :=
  valueCmp rv v == some .gt || valueCmp rv v == some .eq

def sqlLt (rv v : Value) : Bool := valueCmp rv v == some .lt

def sqlLte (rv v : Value) : Bool :=
  valueCmp rv v == some .lt || valueCmp rv v == some .eq

/-- Case-insensitive SQL LIKE pattern matching over character lists
(`%` any run, `_` any single character), for `qb.whereILike`. -/
def likeMatchChars (ps s : List Char) : Bool :=
  match ps, s with
  | [], [] => true
  | [], _ :: _ => false
  | p :: ps', [] => if p = '%' then likeMatchChars ps' [] else false
  | p :: ps', c :: s' =>
    if p = '%' then likeMatchChars ps' (c :: s') || likeMatchChars (p :: ps') s'
    else if p = '_' then likeMatchChars ps' s'
    else p.toLower == c.toLower && likeMatchChars ps' s'
termination_by (ps.length, s.length)

def sqlLike (rv : Value) (pat : String) : Bool :=
  match rv with
  | .vStr s => likeMatchChars pat.toList s.toList
  | _ => false

/-- The conjunction of predicates emitted for one operator object by
`applyFilter`; absent keys contribute nothing. `in`/`nin`/`like` use JS
truthiness: an array is always truthy, the empty string is falsy. -/
def opsPred (o : FilterOps) (rv : Value) : Bool :=
  (match o.eq with | some v => sqlScalarEq rv v | none => true) &&
  (match o.ne with | some v => sqlNe rv v | none => true) &&
  (match o.gt with | some v => sqlGt rv v | none => true) &&
  (match o.gte with | some v => sqlGte rv v | none => true) &&
  (match o.lt with | some v => sqlLt rv v | none => true) &&
  (match o.lte with | some v => sqlLte rv v | none => true) &&
  (match o.inList with
    | some vs => vs.any (fun v => sqlScalarEq rv v)
    | none => true) &&
  (match o.nin with
    | some [] => true
    | some vs => (rv != .vNull) && vs.all (fun v => (v != .vNull) && (rv != v))
    | none => true) &&
  (match o.like with
    | some pat => if pat = "" then true else sqlLike rv pat
    | none => true) &&
  (if o.isNull then rv == .vNull else true) &&
  (if o.isNotNull then rv != .vNull else true)

/-- The predicate emitted for one filter entry. -/
def filterValPred (k : String) (fv : FilterVal) (r : Row) : Bool :=
  match fv with
  | .scalar v => sqlScalarEq (getField r k) v
  | .ops o => opsPred o (getField r k)

/-- A row satisfies a whole filter: the per-key predicates ANDed together. -/
def filterMatches (f : Filter) (r : Row) : Bool :=
  f.all (fun p => filterValPred p.1 p.2 r)

/-- Error raised by `assertFieldAllowed` in `postgres.adapter.ts`. -/
inductive RepoError where
  | fieldNotAllowed (field table : String)
deriving DecidableEq, Repr

/-- The whitelist test: `allowed.length && !allowed.includes(field)` throws,
so a field is allowed when the whitelist is empty or contains it. -/
def fieldAllowedB (allowed : List String) (field : String) : Bool :=
  allowed.isEmpty || allowed.contains field

/-- `assertFieldAllowed` from `createRepository`. -/
def assertFieldAllowed (table : String) (allowed : List String) (field : String) :
    Except RepoError Unit :=
  if fieldAllowedB allowed field then .ok () else .error (.fieldNotAllowed field table)

/-- `applyFilter` from `createRepository`: walks the filter entries in order,
whitelists each key (throwing on the first disallowed one) and builds the
conjunction of the emitted predicates. -/
def applyFilter (table : String) (allowed : List String) : Filter → Except RepoError (Row → Bool)
  | [] => .ok (fun _ => true)
  | (k, fv) :: rest => do
    let _ ← assertFieldAllowed table allowed k
    let p ← applyFilter table allowed rest
    .ok (fun r => filterValPred k fv r && p r)

/-- Whether an `Except` result is a success. -/
def isOkB {ε α : Type} : Except ε α → Bool
  | .ok _ => true
  | .error _ => false

/-- `PostgresEntityConfig` from `database.contracts.ts`; `none` models an
omitted optional property, resolved to its default by the accessors below
exactly as the `??`/`||` defaulting at the top of `createRepository`. -/
structure PostgresEntityConfig where
  table : String
  primaryKey : Option String := none
  columns : Option (List String) := none
  defaultFilter : Option Filter := none
  softDelete : Option Bool := none
  softDeleteField : Option String := none
  timestamps : Option Bool := none
  createdAtField : Option String := none
  updatedAtField : Option String := none
deriving DecidableEq, Repr

/-- `const pk = cfg.primaryKey || 'id'`. -/
def pkOf (cfg : PostgresEntityConfig) : String := cfg.primaryKey.getD "id"

/-- `const allowed = cfg.columns || []`. -/
def allowedOf (cfg : PostgresEntityConfig) : List String := cfg.columns.getD []

/-- `const baseFilter = cfg.defaultFilter || {}`. -/
def baseFilterOf (cfg : PostgresEntityConfig) : Filter := cfg.defaultFilter.getD []

/-- `const softDeleteEnabled = cfg.softDelete ?? false`. -/
def softDeleteEnabledOf (cfg : PostgresEntityConfig) : Bool := cfg.softDelete.getD false

/-- `const softDeleteField = cfg.softDeleteField ?? 'deleted_at'`. -/
def softDeleteFieldOf (cfg : PostgresEntityConfig) : String :=
  cfg.softDeleteField.getD "deleted_at"

/-- `const timestampsEnabled = cfg.timestamps ?? false`. -/
def timestampsEnabledOf (cfg : PostgresEntityConfig) : Bool := cfg.timestamps.getD false

/-- `const createdAtField = cfg.createdAtField ?? 'created_at'`. -/
def createdAtFieldOf (cfg : PostgresEntityConfig) : String :=
  cfg.createdAtField.getD "created_at"

/-- `const updatedAtField = cfg.updatedAtField ?? 'updated_at'`. -/
def updatedAtFieldOf (cfg : PostgresEntityConfig) : String :=
  cfg.updatedAtField.getD "updated_at"

/-- `notDeletedFilter`: `{ [softDeleteField]: { isNull: true } }` when soft
delete is enabled, `{}` otherwise. -/
def pgNotDeletedFilter (cfg : PostgresEntityConfig) : Filter :=
  if softDeleteEnabledOf cfg then
    [(softDeleteFieldOf cfg, .ops { isNull := true })]
  else []

/-- `deletedFilter`: `{ [softDeleteField]: { isNotNull: true } }`, built
inline by `restore`, `restoreMany` and `findDeleted`. -/
def pgDeletedFilter (cfg : PostgresEntityConfig) : Filter :=
  [(softDeleteFieldOf cfg, .ops { isNotNull := true })]

/-- `{ ...baseFilter, ...notDeletedFilter }` used by the by-id operations. -/
def pgBaseNotDeleted (cfg : PostgresEntityConfig) : Filter :=
  mergeAssoc (baseFilterOf cfg) (pgNotDeletedFilter cfg)

/-- `{ ...baseFilter, ...notDeletedFilter, ...filter }`: the merged filter of
every Postgres read operation that takes a caller filter (`findAll, findOne,
findPage, count, exists, select, distinct` and the bulk mutations). -/
def pgReadMergedFilter (cfg : PostgresEntityConfig) (filter : Filter) : Filter :=
  mergeAssoc (pgBaseNotDeleted cfg) filter

/-- `addCreatedAt`: `{ ...data, [createdAtField]: new Date() }` when
timestamps are enabled, identity otherwise. -/
def addCreatedAt (cfg : PostgresEntityConfig) (now : Nat) (data : Row) : Row :=
  if timestampsEnabledOf cfg then setField data (createdAtFieldOf cfg) (.vDate now) else data

/-- `addUpdatedAt`: `{ ...data, [updatedAtField]: new Date() }` when
timestamps are enabled, identity otherwise. -/
def addUpdatedAt (cfg : PostgresEntityConfig) (now : Nat) (data : Row) : Row :=
  if timestampsEnabledOf cfg then setField data (updatedAtFieldOf cfg) (.vDate now) else data

/-- A before-hook: may return a replacement payload; returning `none` models
`undefined`, which `result ?? data` treats as "no change". -/
abbrev HookFn : Type := Row → Option Row

/-- `runBeforeCreate`: `hooks?.beforeCreate` applied, `result ?? data`. -/
def runBeforeCreate (hook : Option HookFn) (data : Row) : Row :=
  match hook with
  | some h => (h data).getD data
  | none => data

/-- `runBeforeUpdate`: `hooks?.beforeUpdate` applied, `result ?? data`. -/
def runBeforeUpdate (hook : Option HookFn) (data : Row) : Row :=
  match hook with
  | some h => (h data).getD data
  | none => data

/-- The payload handed to `kx(table).insert(...)` by `create`: the
before-create hook runs first, the timestamp overlay second. -/
def pgCreatePayload (cfg : PostgresEntityConfig) (hook : Option HookFn) (now : Nat)
    (data : Row) : Row :=
  addCreatedAt cfg now (runBeforeCreate hook data)

/-- `create`: insert the processed payload; the database echo of the inserted
row is modelled as the payload itself appended to the table. -/
def pgCreate (cfg : PostgresEntityConfig) (hook : Option HookFn) (now : Nat)
    (tbl : List Row) (data : Row) : Row × List Row :=
  let payload := pgCreatePayload cfg hook now data
  (payload, tbl ++ [payload])

/-- `findById`: `where({[pk]: id})` (not whitelist-checked) plus
`applyFilter` of `{ ...baseFilter, ...notDeletedFilter }`; `.first()`. -/
def pgFindById (cfg : PostgresEntityConfig) (tbl : List Row) (id : Value) :
    Except RepoError (Option Row) := do
  let p ← applyFilter cfg.table (allowedOf cfg) (pgBaseNotDeleted cfg)
  .ok ((tbl.filter (fun r => sqlScalarEq (getField r (pkOf cfg)) id && p r)).head?)

/-- `findAll`: `applyFilter` of the three-way merged filter. -/
def pgFindAll (cfg : PostgresEntityConfig) (tbl : List Row) (filter : Filter) :
    Except RepoError (List Row) := do
  let p ← applyFilter cfg.table (allowedOf cfg) (pgReadMergedFilter cfg filter)
  .ok (tbl.filter p)

/-- `findOne`: as `findAll` but `.first()`. -/
def pgFindOne (cfg : PostgresEntityConfig) (tbl : List Row) (filter : Filter) :
    Except RepoError (Option Row) := do
  let p ← applyFilter cfg.table (allowedOf cfg) (pgReadMergedFilter cfg filter)
  .ok ((tbl.filter p).head?)

/-- `findPage` (sort omitted): `offset = Math.max(0, (page-1)*limit)`, a
limited/offset data query and a count query over the same merged filter,
shaped by `shapePage`. -/
def pgFindPage (cfg : PostgresEntityConfig) (tbl : List Row) (filter : Filter)
    (page limit : Int) : Except RepoError (PageResult Row) := do
  let p ← applyFilter cfg.table (allowedOf cfg) (pgReadMergedFilter cfg filter)
  let offset : Int := max 0 ((page - 1) * limit)
  let data := ((tbl.filter p).drop offset.toNat).take limit.toNat
  let total : Int := (tbl.filter p).length
  .ok (shapePage data page limit total)

/-- `updateById`: before-update hook, updated-at overlay, then an UPDATE
whose WHERE is `{[pk]: id}` plus `{ ...baseFilter, ...notDeletedFilter }`,
returning the first updated row. -/
def pgUpdateById (cfg : PostgresEntityConfig) (hook : Option HookFn) (now : Nat)
    (tbl : List Row) (id : Value) (update : Row) :
    Except RepoError (Option Row × List Row) := do
  let processed := addUpdatedAt cfg now (runBeforeUpdate hook update)
  let p ← applyFilter cfg.table (allowedOf cfg) (pgBaseNotDeleted cfg)
  let m := fun r => sqlScalarEq (getField r (pkOf cfg)) id && p r
  let updated := (tbl.filter m).map (fun r => mergeAssoc r processed)
  .ok (updated.head?, tbl.map (fun r => if m r then mergeAssoc r processed else r))

/-- `deleteById`: with soft delete enabled the DELETE is rewritten to an
UPDATE setting the soft-delete field; success is `affectedRows > 0`. The
before/after delete hooks are observers and are not modelled. -/
def pgDeleteById (cfg : PostgresEntityConfig) (now : Nat) (tbl : List Row) (id : Value) :
    Except RepoError (Bool × List Row) := do
  let p ← applyFilter cfg.table (allowedOf cfg) (pgBaseNotDeleted cfg)
  let m := fun r => sqlScalarEq (getField r (pkOf cfg)) id && p r
  if softDeleteEnabledOf cfg then
    .ok (decide (0 < tbl.countP m),
      tbl.map (fun r => if m r then setField r (softDeleteFieldOf cfg) (.vDate now) else r))
  else
    .ok (decide (0 < tbl.countP m), tbl.filter (fun r => !(m r)))

/-- `count` over the three-way merged filter. -/
def pgCount (cfg : PostgresEntityConfig) (tbl : List Row) (filter : Filter) :
    Except RepoError Nat := do
  let p ← applyFilter cfg.table (allowedOf cfg) (pgReadMergedFilter cfg filter)
  .ok (tbl.countP p)

/-- `exists` over the three-way merged filter (select pk, `.first()`). -/
def pgExistsOp (cfg : PostgresEntityConfig) (tbl : List Row) (filter : Filter) :
    Except RepoError Bool := do
  let p ← applyFilter cfg.table (allowedOf cfg) (pgReadMergedFilter cfg filter)
  .ok (tbl.filter p).head?.isSome

/-- `insertMany`: empty input short-circuits to `[]` before the driver is
invoked; otherwise each record gets the created-at overlay and the batch is
inserted. The third component records whether the driver insert ran. -/
def pgInsertMany (cfg : PostgresEntityConfig) (now : Nat) (tbl : List Row)
    (data : List Row) : List Row × List Row × Bool :=
  if data.length = 0 then ([], tbl, false)
  else
    let timestamped := data.map (addCreatedAt cfg now)
    (timestamped, tbl ++ timestamped, true)

/-- `updateMany` over the three-way merged filter with the updated-at overlay. -/
def pgUpdateMany (cfg : PostgresEntityConfig) (now : Nat) (tbl : List Row)
    (filter : Filter) (update : Row) : Except RepoError (Nat × List Row) := do
  let timestamped := addUpdatedAt cfg now update
  let p ← applyFilter cfg.table (allowedOf cfg) (pgReadMergedFilter cfg filter)
  .ok (tbl.countP p, tbl.map (fun r => if p r then mergeAssoc r timestamped else r))

/-- `deleteMany`: soft-delete rewrite when enabled, plain delete otherwise. -/
def pgDeleteMany (cfg : PostgresEntityConfig) (now : Nat) (tbl : List Row)
    (filter : Filter) : Except RepoError (Nat × List Row) := do
  let p ← applyFilter cfg.table (allowedOf cfg) (pgReadMergedFilter cfg filter)
  if softDeleteEnabledOf cfg then
    .ok (tbl.countP p,
      tbl.map (fun r => if p r then setField r (softDeleteFieldOf cfg) (.vDate now) else r))
  else
    .ok (tbl.countP p, tbl.filter (fun r => !(p r)))

/-- `distinct` over the three-way merged filter. -/
def pgDistinct (cfg : PostgresEntityConfig) (tbl : List Row) (field : String)
    (filter : Filter) : Except RepoError (List Value) := do
  let p ← applyFilter cfg.table (allowedOf cfg) (pgReadMergedFilter cfg filter)
  .ok ((tbl.filter p).map (fun r => getField r field)).dedup

/-- `select` (projection) over the three-way merged filter. -/
def pgSelect (cfg : PostgresEntityConfig) (tbl : List Row) (filter : Filter)
    (fields : List String) : Except RepoError (List Row) := do
  let p ← applyFilter cfg.table (allowedOf cfg) (pgReadMergedFilter cfg filter)
  .ok ((tbl.filter p).map (fun r => fields.map (fun f => (f, getField r f))))

/-- `softDelete` (only wired when soft delete is enabled): UPDATE setting the
soft-delete field where `{[pk]: id}` plus `{...baseFilter, ...notDeletedFilter}`. -/
def pgSoftDeleteOp (cfg : PostgresEntityConfig) (now : Nat) (tbl : List Row) (id : Value) :
    Except RepoError (Bool × List Row) := do
  let p ← applyFilter cfg.table (allowedOf cfg) (pgBaseNotDeleted cfg)
  let m := fun r => sqlScalarEq (getField r (pkOf cfg)) id && p r
  .ok (decide (0 < tbl.countP m),
    tbl.map (fun r => if m r then setField r (softDeleteFieldOf cfg) (.vDate now) else r))

/-- `softDeleteMany` over `{ ...baseFilter, ...notDeletedFilter, ...filter }`. -/
def pgSoftDeleteManyOp (cfg : PostgresEntityConfig) (now : Nat) (tbl : List Row)
    (filter : Filter) : Except RepoError (Nat × List Row) := do
  let p ← applyFilter cfg.table (allowedOf cfg) (pgReadMergedFilter cfg filter)
  .ok (tbl.countP p,
    tbl.map (fun r => if p r then setField r (softDeleteFieldOf cfg) (.vDate now) else r))

/-- `restore`: UPDATE clearing the soft-delete field where `{[pk]: id}` plus
`{ ...baseFilter, ...deletedFilter }`, returning the first updated row. -/
def pgRestoreOp (cfg : PostgresEntityConfig) (tbl : List Row) (id : Value) :
    Except RepoError (Option Row × List Row) := do
  let p ← applyFilter cfg.table (allowedOf cfg)
    (mergeAssoc (baseFilterOf cfg) (pgDeletedFilter cfg))
  let m := fun r => sqlScalarEq (getField r (pkOf cfg)) id && p r
  let updated := (tbl.filter m).map (fun r => setField r (softDeleteFieldOf cfg) .vNull)
  .ok (updated.head?,
    tbl.map (fun r => if m r then setField r (softDeleteFieldOf cfg) .vNull else r))

/-- `restoreMany` over `{ ...baseFilter, ...deletedFilter, ...filter }`. -/
def pgRestoreManyOp (cfg : PostgresEntityConfig) (tbl : List Row) (filter : Filter) :
    Except RepoError (Nat × List Row) := do
  let p ← applyFilter cfg.table (allowedOf cfg)
    (mergeAssoc (mergeAssoc (baseFilterOf cfg) (pgDeletedFilter cfg)) filter)
  .ok (tbl.countP p,
    tbl.map (fun r => if p r then setField r (softDeleteFieldOf cfg) .vNull else r))

/-- `findAllWithDeleted`: merges only `{ ...baseFilter, ...filter }`, without
the not-deleted predicate. -/
def pgFindAllWithDeleted (cfg : PostgresEntityConfig) (tbl : List Row) (filter : Filter) :
    Except RepoError (List Row) := do
  let p ← applyFilter cfg.table (allowedOf cfg) (mergeAssoc (baseFilterOf cfg) filter)
  .ok (tbl.filter p)

/-- `findDeleted` over `{ ...baseFilter, ...deletedFilter, ...filter }`. -/
def pgFindDeleted (cfg : PostgresEntityConfig) (tbl : List Row) (filter : Filter) :
    Except RepoError (List Row) := do
  let p ← applyFilter cfg.table (allowedOf cfg)
    (mergeAssoc (mergeAssoc (baseFilterOf cfg) (pgDeletedFilter cfg)) filter)
  .ok (tbl.filter p)

/-- The `Repository` object literal built by the Postgres `createRepository`:
the six soft-delete methods are `softDeleteEnabled ? fn : undefined`, modelled
as `Option`-valued fields. -/
structure PgRepository where
  create : Option HookFn → Nat → List Row → Row → Row × List Row
  findById : List Row → Value → Except RepoError (Option Row)
  findAll : List Row → Filter → Except RepoError (List Row)
  findOne : List Row → Filter → Except RepoError (Option Row)
  findPage : List Row → Filter → Int → Int → Except RepoError (PageResult Row)
  updateById : Option HookFn → Nat → List Row → Value → Row → Except RepoError (Option Row × List Row)
  deleteById : Nat → List Row → Value → Except RepoError (Bool × List Row)
  count : List Row → Filter → Except RepoError Nat
  existsOp : List Row → Filter → Except RepoError Bool
  insertMany : Nat → List Row → List Row → List Row × List Row × Bool
  updateMany : Nat → List Row → Filter → Row → Except RepoError (Nat × List Row)
  deleteMany : Nat → List Row → Filter → Except RepoError (Nat × List Row)
  distinct : List Row → String → Filter → Except RepoError (List Value)
  select : List Row → Filter → List String → Except RepoError (List Row)
  softDelete : Option (Nat → List Row → Value → Except RepoError (Bool × List Row))
  softDeleteMany : Option (Nat → List Row → Filter → Except RepoError (Nat × List Row))
  restore : Option (List Row → Value → Except RepoError (Option Row × List Row))
  restoreMany : Option (List Row → Filter → Except RepoError (Nat × List Row))
  findAllWithDeleted : Option (List Row → Filter → Except RepoError (List Row))
  findDeleted : Option (List Row → Filter → Except RepoError (List Row))

/-- The Postgres `createRepository` factory. -/
def pgCreateRepository (cfg : PostgresEntityConfig) : PgRepository where
  create := fun hook now tbl d => pgCreate cfg hook now tbl d
  findById := fun tbl id => pgFindById cfg tbl id
  findAll := fun tbl f => pgFindAll cfg tbl f
  findOne := fun tbl f => pgFindOne cfg tbl f
  findPage := fun tbl f page limit => pgFindPage cfg tbl f page limit
  updateById := fun hook now tbl id u => pgUpdateById cfg hook now tbl id u
  deleteById := fun now tbl id => pgDeleteById cfg now tbl id
  count := fun tbl f => pgCount cfg tbl f
  existsOp := fun tbl f => pgExistsOp cfg tbl f
  insertMany := fun now tbl d => pgInsertMany cfg now tbl d
  updateMany := fun now tbl f u => pgUpdateMany cfg now tbl f u
  deleteMany := fun now tbl f => pgDeleteMany cfg now tbl f
  distinct := fun tbl field f => pgDistinct cfg tbl field f
  select := fun tbl f fields => pgSelect cfg tbl f fields
  softDelete :=
    if softDeleteEnabledOf cfg then some (fun now tbl id => pgSoftDeleteOp cfg now tbl id)
    else none
  softDeleteMany :=
    if softDeleteEnabledOf cfg then some (fun now tbl f => pgSoftDeleteManyOp cfg now tbl f)
    else none
  restore :=
    if softDeleteEnabledOf cfg then some (fun tbl id => pgRestoreOp cfg tbl id)
    else none
  restoreMany :=
    if softDeleteEnabledOf cfg then some (fun tbl f => pgRestoreManyOp cfg tbl f)
    else none
  findAllWithDeleted :=
    if softDeleteEnabledOf cfg then some (fun tbl f => pgFindAllWithDeleted cfg tbl f)
    else none
  findDeleted :=
    if softDeleteEnabledOf cfg then some (fun tbl f => pgFindDeleted cfg tbl f)
    else none

/-- A Mongo filter condition for one field: a literal (equality) or one of the
query operators the adapter constructs or forwards (`$eq`, `$ne`). -/
inductive MongoCond where
  | lit : Value → MongoCond
  | mEq : Value → MongoCond
  | mNe : Value → MongoCond
deriving DecidableEq, Repr

/-- A Mongo query object: field name to condition. -/
abbrev MongoFilter : Type := List (String × MongoCond)

/-- Mongo condition semantics; a missing field reads as `vNull`, matching
Mongo's treatment of missing fields under `$eq: null` / `$ne: null`. -/
def mongoCondMatches (rv : Value) : MongoCond → Bool
  | .lit v => rv == v
  | .mEq v => rv == v
  | .mNe v => rv != v

/-- A document satisfies a whole Mongo query object. -/
def mongoMatches (f : MongoFilter) (r : Row) : Bool :=
  f.all (fun p => mongoCondMatches (getField r p.1) p.2)

/-- `MongoRepositoryOptions` from `database.contracts.ts` (the model handle
itself is outside the embedding; there is no whitelist and no default
filter on this backend). -/
structure MongoRepositoryOptions where
  softDelete : Option Bool := none
  softDeleteField : Option String := none
  timestamps : Option Bool := none
  createdAtField : Option String := none
  updatedAtField : Option String := none
deriving DecidableEq, Repr

/-- `const softDeleteEnabled = opts.softDelete ?? false`. -/
def mongoSoftDeleteEnabledOf (opts : MongoRepositoryOptions) : Bool :=
  opts.softDelete.getD false

/-- `const softDeleteField = opts.softDeleteField ?? 'deletedAt'`. -/
def mongoSoftDeleteFieldOf (opts : MongoRepositoryOptions) : String :=
  opts.softDeleteField.getD "deletedAt"

/-- `const timestampsEnabled = opts.timestamps ?? false`. -/
def mongoTimestampsEnabledOf (opts : MongoRepositoryOptions) : Bool :=
  opts.timestamps.getD false

/-- `const createdAtField = opts.createdAtField ?? 'createdAt'`. -/
def mongoCreatedAtFieldOf (opts : MongoRepositoryOptions) : String :=
  opts.createdAtField.getD "createdAt"

/-- `const updatedAtField = opts.updatedAtField ?? 'updatedAt'`. -/
def mongoUpdatedAtFieldOf (opts : MongoRepositoryOptions) : String :=
  opts.updatedAtField.getD "updatedAt"

/-- `notDeletedFilter`: `{ [softDeleteField]: { $eq: null } }` when soft
delete is enabled, `{}` otherwise. -/
def mongoNotDeletedFilter (opts : MongoRepositoryOptions) : MongoFilter :=
  if mongoSoftDeleteEnabledOf opts then
    [(mongoSoftDeleteFieldOf opts, .mEq .vNull)]
  else []

/-- `{ ...filter, ...notDeletedFilter }`: the merged filter of every Mongo
read operation that takes a caller filter — note the not-deleted filter is
spread LAST on this backend. -/
def mongoReadMergedFilter (opts : MongoRepositoryOptions) (filter : MongoFilter) :
    MongoFilter :=
  mergeAssoc filter (mongoNotDeletedFilter opts)

/-- Mongo `addCreatedAt` overlay. -/
def mongoAddCreatedAt (opts : MongoRepositoryOptions) (now : Nat) (data : Row) : Row :=
  if mongoTimestampsEnabledOf opts then
    setField data (mongoCreatedAtFieldOf opts) (.vDate now)
  else data

/-- Removing a document field, modelling `$unset`. -/
def eraseField (r : Row) (f : String) : Row :=
  r.filter (fun p => p.1 ≠ f)

/-- Mongo `findById`: `findOne({ _id: id, ...notDeletedFilter })`. -/
def mongoFindById (opts : MongoRepositoryOptions) (tbl : List Row) (id : Value) :
    Option Row :=
  (tbl.filter (mongoMatches (mergeAssoc [("_id", .lit id)] (mongoNotDeletedFilter opts)))).head?

/-- Mongo `findAll`: `find({ ...filter, ...notDeletedFilter })`. -/
def mongoFindAll (opts : MongoRepositoryOptions) (tbl : List Row) (filter : MongoFilter) :
    List Row :=
  tbl.filter (mongoMatches (mongoReadMergedFilter opts filter))

/-- Mongo `findOne`. -/
def mongoFindOne (opts : MongoRepositoryOptions) (tbl : List Row) (filter : MongoFilter) :
    Option Row :=
  (tbl.filter (mongoMatches (mongoReadMergedFilter opts filter))).head?

/-- Mongo `count`. -/
def mongoCount (opts : MongoRepositoryOptions) (tbl : List Row) (filter : MongoFilter) :
    Nat :=
  tbl.countP (mongoMatches (mongoReadMergedFilter opts filter))

/-- Mongo `exists`. -/
def mongoExistsOp (opts : MongoRepositoryOptions) (tbl : List Row) (filter : MongoFilter) :
    Bool :=
  (tbl.filter (mongoMatches (mongoReadMergedFilter opts filter))).head?.isSome

/-- Mongo `insertMany`: empty input short-circuits before `model.insertMany`
is invoked; the third component records whether the driver insert ran. -/
def mongoInsertMany (opts : MongoRepositoryOptions) (now : Nat) (tbl : List Row)
    (data : List Row) : List Row × List Row × Bool :=
  if data.length = 0 then ([], tbl, false)
  else
    let timestamped := data.map (mongoAddCreatedAt opts now)
    (timestamped, tbl ++ timestamped, true)

/-- Mongo `softDelete`: `updateOne({ _id: id, ...notDeletedFilter },
{ [softDeleteField]: new Date() })`, success iff `modifiedCount > 0`
(`updateOne` touches at most the first matching document). -/
def mongoSoftDeleteOp (opts : MongoRepositoryOptions) (now : Nat) (tbl : List Row)
    (id : Value) : Bool × List Row :=
  let m := mongoMatches (mergeAssoc [("_id", .lit id)] (mongoNotDeletedFilter opts))
  match (tbl.filter m).head? with
  | none => (false, tbl)
  | some r =>
    let r' := setField r (mongoSoftDeleteFieldOf opts) (.vDate now)
    (r' ≠ r, tbl.map (fun x => if x = r then r' else x))

/-- Mongo `restore`: `findOneAndUpdate({ _id: id, [sdField]: { $ne: null } },
{ $unset: { [sdField]: 1 } }, { new: true })`. -/
def mongoRestoreOp (opts : MongoRepositoryOptions) (tbl : List Row) (id : Value) :
    Option Row × List Row :=
  let m := mongoMatches [("_id", .lit id), (mongoSoftDeleteFieldOf opts, .mNe .vNull)]
  match (tbl.filter m).head? with
  | none => (none, tbl)
  | some r =>
    let r' := eraseField r (mongoSoftDeleteFieldOf opts)
    (some r', tbl.map (fun x => if x = r then r' else x))

/-- Mongo `softDeleteMany`: `updateMany` over `{ ...filter, ...notDeletedFilter }`;
`modifiedCount` counts the documents the update actually changed. -/
def mongoSoftDeleteManyOp (opts : MongoRepositoryOptions) (now : Nat) (tbl : List Row)
    (filter : MongoFilter) : Nat × List Row :=
  let m := mongoMatches (mongoReadMergedFilter opts filter)
  let f := mongoSoftDeleteFieldOf opts
  (tbl.countP (fun r => m r && setField r f (.vDate now) ≠ r),
    tbl.map (fun r => if m r then setField r f (.vDate now) else r))

/-- Mongo `restoreMany`: `updateMany` with `$unset` over
`{ ...filter, [sdField]: { $ne: null } }`. -/
def mongoRestoreManyOp (opts : MongoRepositoryOptions) (tbl : List Row)
    (filter : MongoFilter) : Nat × List Row :=
  let f := mongoSoftDeleteFieldOf opts
  let m := mongoMatches (mergeAssoc filter [(f, .mNe .vNull)])
  (tbl.countP (fun r => m r && eraseField r f ≠ r),
    tbl.map (fun r => if m r then eraseField r f else r))

/-- Mongo `findAllWithDeleted`: `find(filter)` with no merge at all. -/
def mongoFindAllWithDeleted (tbl : List Row) (filter : MongoFilter) : List Row :=
  tbl.filter (mongoMatches filter)

/-- Mongo `findDeleted`: `find({ ...filter, [sdField]: { $ne: null } })`. -/
def mongoFindDeleted (opts : MongoRepositoryOptions) (tbl : List Row)
    (filter : MongoFilter) : List Row :=
  tbl.filter (mongoMatches (mergeAssoc filter [(mongoSoftDeleteFieldOf opts, .mNe .vNull)]))

/-- The `Repository` object literal built by the Mongo `createRepository`
(the operations the claims exercise); the six soft-delete methods are
`softDeleteEnabled ? fn : undefined`. -/
structure MongoRepository where
  findById : List Row → Value → Option Row
  findAll : List Row → MongoFilter → List Row
  findOne : List Row → MongoFilter → Option Row
  count : List Row → MongoFilter → Nat
  existsOp : List Row → MongoFilter → Bool
  insertMany : Nat → List Row → List Row → List Row × List Row × Bool
  softDelete : Option (Nat → List Row → Value → Bool × List Row)
  softDeleteMany : Option (Nat → List Row → MongoFilter → Nat × List Row)
  restore : Option (List Row → Value → Option Row × List Row)
  restoreMany : Option (List Row → MongoFilter → Nat × List Row)
  findAllWithDeleted : Option (List Row → MongoFilter → List Row)
  findDeleted : Option (List Row → MongoFilter → List Row)

/-- The Mongo `createRepository` factory. -/
def mongoCreateRepository (opts : MongoRepositoryOptions) : MongoRepository where
  findById := fun tbl id => mongoFindById opts tbl id
  findAll := fun tbl f => mongoFindAll opts tbl f
  findOne := fun tbl f => mongoFindOne opts tbl f
  count := fun tbl f => mongoCount opts tbl f
  existsOp := fun tbl f => mongoExistsOp opts tbl f
  insertMany := fun now tbl d => mongoInsertMany opts now tbl d
  softDelete :=
    if mongoSoftDeleteEnabledOf opts then
      some (fun now tbl id => mongoSoftDeleteOp opts now tbl id)
    else none
  softDeleteMany :=
    if mongoSoftDeleteEnabledOf opts then
      some (fun now tbl f => mongoSoftDeleteManyOp opts now tbl f)
    else none
  restore :=
    if mongoSoftDeleteEnabledOf opts then
      some (fun tbl id => mongoRestoreOp opts tbl id)
    else none
  restoreMany :=
    if mongoSoftDeleteEnabledOf opts then
      some (fun tbl f => mongoRestoreManyOp opts tbl f)
    else none
  findAllWithDeleted :=
    if mongoSoftDeleteEnabledOf opts then
      some (fun tbl f => mongoFindAllWithDeleted tbl f)
    else none
  findDeleted :=
    if mongoSoftDeleteEnabledOf opts then
      some (fun tbl f => mongoFindDeleted opts tbl f)
    else none

/-- Observable events of one `withTransaction` call. `startSession` and
`endSession` occur only on the document backend (Mongoose client sessions);
`startTransaction`/`commitTransaction`/`abortTransaction` model the native
transaction primitive on either backend. -/
inductive TxEvent where
  | startSession : TxEvent
  | startTransaction : TxEvent
  | runCallback : Nat → TxEvent
  | commitTransaction : TxEvent
  | abortTransaction : TxEvent
  | endSession : TxEvent
  | sleep : Nat → TxEvent
deriving DecidableEq, Repr

/-- `Math.min(100 * Math.pow(2, attempt), 3000)`. -/
def backoffMs (attempt : Nat) : Nat := min (100 * 2 ^ attempt) 3000

/-- The retry loop of `MongoAdapter.withTransaction`. One attempt: start a
fresh session, start a transaction, run the callback; on success commit and
return; on a thrown error abort, then rethrow unless the error is transient
and the budget (`fuel = retries - attempt`) is not exhausted, in which case
sleep the exponential backoff and loop. `endSession` is in a `finally`, so it
closes every attempt (the sleep inside the catch block precedes it). -/
def mongoTxLoop {ε α : Type} (classify : ε → Bool) (run : Nat → Except ε α) :
    Nat → Nat → Except ε α × List TxEvent
  | attempt, 0 =>
    let pre : List TxEvent := [.startSession, .startTransaction, .runCallback attempt]
    match run attempt with
    | .ok a => (.ok a, pre ++ [.commitTransaction, .endSession])
    | .error e => (.error e, pre ++ [.abortTransaction, .endSession])
  | attempt, f + 1 =>
    let pre : List TxEvent := [.startSession, .startTransaction, .runCallback attempt]
    match run attempt with
    | .ok a => (.ok a, pre ++ [.commitTransaction, .endSession])
    | .error e =>
      if classify e then
        let next := mongoTxLoop classify run (attempt + 1) f
        (next.1, pre ++ [.abortTransaction, .sleep (backoffMs attempt), .endSession] ++ next.2)
      else (.error e, pre ++ [.abortTransaction, .endSession])

/-- `MongoAdapter.withTransaction` with `retries = N`: the loop runs attempts
`0..N`. The callback is modelled by its outcome per attempt number. -/
def mongoWithTransaction {ε α : Type} (classify : ε → Bool) (run : Nat → Except ε α)
    (retries : Nat) : Except ε α × List TxEvent :=
  mongoTxLoop classify run 0 retries

/-- The retry loop of `PostgresAdapter.withTransaction`: `kx.transaction`
commits when the callback resolves and rolls back when it throws. -/
def pgTxLoop {ε α : Type} (classify : ε → Bool) (run : Nat → Except ε α) :
    Nat → Nat → Except ε α × List TxEvent
  | attempt, 0 =>
    let pre : List TxEvent := [.startTransaction, .runCallback attempt]
    match run attempt with
    | .ok a => (.ok a, pre ++ [.commitTransaction])
    | .error e => (.error e, pre ++ [.abortTransaction])
  | attempt, f + 1 =>
    let pre : List TxEvent := [.startTransaction, .runCallback attempt]
    match run attempt with
    | .ok a => (.ok a, pre ++ [.commitTransaction])
    | .error e =>
      if classify e then
        let next := pgTxLoop classify run (attempt + 1) f
        (next.1, pre ++ [.abortTransaction, .sleep (backoffMs attempt)] ++ next.2)
      else (.error e, pre ++ [.abortTransaction])

/-- `PostgresAdapter.withTransaction` with `retries = N`. -/
def pgWithTransaction {ε α : Type} (classify : ε → Bool) (run : Nat → Except ε α)
    (retries : Nat) : Except ε α × List TxEvent :=
  pgTxLoop classify run 0 retries

/-- A PostgreSQL driver error as inspected by `isRetryableError`
(only its `code` property matters). -/
structure PgDriverError where
  code : Option String := none
deriving DecidableEq, Repr

/-- `retryableCodes` from `PostgresAdapter.isRetryableError`. -/
def pgRetryableCodes : List String := ["40001", "40P01", "55P03", "57P01", "57014"]

/-- `PostgresAdapter.isRetryableError`; `pgError.code &&` is JS truthiness,
so an empty-string code is falsy. -/
def isRetryableError (e : PgDriverError) : Bool :=
  match e.code with
  | some c => (c != "") && pgRetryableCodes.contains c
  | none => false

/-- A MongoDB driver error as inspected by `isTransientError`:
`errorLabels = none` models an error object without a `hasErrorLabel` method. -/
structure MongoDriverError where
  errorLabels : Option (List String) := none
  code : Option Int := none
deriving DecidableEq, Repr

/-- `retryableCodes` from `MongoAdapter.isTransientError`. -/
def mongoRetryableCodes : List Int := [11600, 11602, 10107, 13435, 13436, 189, 91]

/-- The codes the specification names as retryable on the document backend:
not-writable-primary (10107), interrupted-due-to-repl-state-change (11602),
primary-stepped-down (189), shutdown-in-progress (91),
interrupted-at-shutdown (11600). -/
def specNamedMongoCodes : List Int := [10107, 11602, 189, 91, 11600]

/-- `mongoError.hasErrorLabel?.('TransientTransactionError')`. -/
def hasTransientLabel (e : MongoDriverError) : Bool :=
  match e.errorLabels with
  | some ls => ls.contains "TransientTransactionError"
  | none => false

/-- `MongoAdapter.isTransientError`; `mongoError.code &&` is JS truthiness,
so a zero code is falsy. -/
def isTransientError (e : MongoDriverError) : Bool :=
  hasTransientLabel e ||
  (match e.code with
   | some c => (c != 0) && mongoRetryableCodes.contains c
   | none => false)

/-- The event block of one failed Mongo attempt; `sleepAfter` marks a
non-final retryable attempt. -/
def mongoAttemptEvents (attempt : Nat) (sleepAfter : Bool) : List TxEvent :=
  [.startSession, .startTransaction, .runCallback attempt, .abortTransaction] ++
  (if sleepAfter then [.sleep (backoffMs attempt)] else []) ++ [.endSession]

/-- The event block of one failed Postgres attempt. -/
def pgAttemptEvents (attempt : Nat) (sleepAfter : Bool) : List TxEvent :=
  [.startTransaction, .runCallback attempt, .abortTransaction] ++
  (if sleepAfter then [.sleep (backoffMs attempt)] else [])

def isRunCallbackEv : TxEvent → Bool
  | .runCallback _ => true
  | _ => false

def isSleepEv : TxEvent → Bool
  | .sleep _ => true
  | _ => false

def isStartSessionEv : TxEvent → Bool
  | .startSession => true
  | _ => false

def isEndSessionEv : TxEvent → Bool
  | .endSession => true
  | _ => false

/-- A whitelisted soft-delete configuration whose whitelist omits the
soft-delete column, used to witness C9. -/
def whitelistedCfg : PostgresEntityConfig :=
  { table := "t", columns := some ["id", "name"], softDelete := some true }

/-- A timestamped configuration and a hook that rewrites the payload, used to
witness C7. -/
def timestampedCfg : PostgresEntityConfig :=
  { table := "t", timestamps := some true }

/-- A before-create hook returning a replacement payload (C7 witness). -/
def renameHook : HookFn :=
  fun _ => some [("name", Value.vStr "HookedAnn"), ("created_at", Value.vInt 0)]

/-- A Postgres configuration with a default filter, used to witness C1. -/
def defaultFilteredCfg : PostgresEntityConfig :=
  { table := "t",
    defaultFilter := some [("status", FilterVal.scalar (Value.vStr "active"))] }

/-- A soft-delete-enabled configuration and the three versions of one
record along the create / soft-delete / restore sequence (C5 witness). -/
def softCfg : PostgresEntityConfig := { table := "users", softDelete := some true }

def c5row : Row := [("id", Value.vInt 1), ("name", Value.vStr "Ann")]

def c5rowDel : Row :=
  [("id", Value.vInt 1), ("name", Value.vStr "Ann"), ("deleted_at", Value.vDate 9)]

def c5rowRes : Row :=
  [("id", Value.vInt 1), ("name", Value.vStr "Ann"), ("deleted_at", Value.vNull)]

/-!
### Lemmas and claim theorems
-/

@[simp] theorem keysOf_nil {α : Type} : keysOf ([] : List (String × α)) = [] := rfl

@[simp] theorem keysOf_cons {α : Type} (p : String × α) (l : List (String × α)) :
    keysOf (p :: l) = p.1 :: keysOf l := rfl

@[simp] theorem except_ok_bind {ε α β : Type} (a : α) (f : α → Except ε β) :
    (Except.ok a : Except ε α) >>= f = f a := rfl

@[simp] theorem except_error_bind {ε α β : Type} (e : ε) (f : α → Except ε β) :
    (Except.error e : Except ε α) >>= f = Except.error e := rfl

@[simp] theorem lookupKey_nil {α : Type} (key : String) :
    lookupKey ([] : List (String × α)) key = none := rfl

@[simp] theorem lookupKey_cons {α : Type} (k : String) (v : α)
    (rest : List (String × α)) (key : String) :
    lookupKey ((k, v) :: rest) key = if k = key then some v else lookupKey rest key := rfl

theorem lookupKey_append {α : Type} (a b : List (String × α)) (key : String) :
    lookupKey (a ++ b) key = ((lookupKey a key).orElse (fun _ => lookupKey b key)) := by
  induction a with
  | nil => simp [Option.orElse]
  | cons p rest ih =>
    obtain ⟨k, v⟩ := p
    by_cases h : k = key <;> simp [h, ih, Option.orElse]

theorem lookupKey_eq_none_iff {α : Type} (l : List (String × α)) (key : String) :
    lookupKey l key = none ↔ key ∉ keysOf l := by
  induction l with
  | nil => simp [keysOf]
  | cons p rest ih =>
    obtain ⟨k, v⟩ := p
    simp only [lookupKey_cons, keysOf, List.map_cons, List.mem_cons]
    by_cases h : k = key
    · subst h; simp
    · simp [h, ih, keysOf, Ne.symm h]

theorem lookupKey_map_override {α : Type} (a b : List (String × α)) (key : String) :
    lookupKey (a.map (fun p =>
      match lookupKey b p.1 with
      | some w => (p.1, w)
      | none => p)) key
      = (lookupKey a key).map (fun v => (lookupKey b key).getD v) := by
  induction a with
  | nil => simp
  | cons p rest ih =>
    obtain ⟨k, v⟩ := p
    by_cases h : k = key
    · subst h
      cases hb : lookupKey b k <;> simp [hb]
    · cases hb : lookupKey b k <;> simp [hb, h, ih]

theorem lookupKey_filter_kept {α : Type} (a b : List (String × α)) (key : String)
    (h : lookupKey a key = none) :
    lookupKey (b.filter (fun p => (lookupKey a p.1).isNone)) key = lookupKey b key := by
  induction b with
  | nil => simp
  | cons p rest ih =>
    obtain ⟨k, v⟩ := p
    by_cases hk : k = key
    · subst hk
      simp [List.filter_cons, h, ih]
    · cases ha : lookupKey a k <;> simp [List.filter_cons, ha, hk, ih]

theorem lookupKey_filter_removed {α : Type} (a b : List (String × α)) (key : String)
    (u : α) (h : lookupKey a key = some u) :
    lookupKey (b.filter (fun p => (lookupKey a p.1).isNone)) key = none := by
  induction b with
  | nil => simp
  | cons p rest ih =>
    obtain ⟨k, v⟩ := p
    by_cases hk : k = key
    · subst hk
      simp [List.filter_cons, h, ih]
    · cases ha : lookupKey a k <;> simp [List.filter_cons, ha, hk, ih]

/-- A key present in the right operand of a spread wins. -/
theorem lookupKey_mergeAssoc_right {α : Type} (a b : List (String × α)) (key : String)
    (v : α) (h : lookupKey b key = some v) :
    lookupKey (mergeAssoc a b) key = some v := by
  unfold mergeAssoc
  rw [lookupKey_append, lookupKey_map_override]
  cases ha : lookupKey a key with
  | none => simp [Option.orElse, lookupKey_filter_kept a b key ha, h]
  | some u => simp [Option.orElse, h]

/-- A key absent from the right operand of a spread keeps the left value. -/
theorem lookupKey_mergeAssoc_left {α : Type} (a b : List (String × α)) (key : String)
    (h : lookupKey b key = none) :
    lookupKey (mergeAssoc a b) key = lookupKey a key := by
  unfold mergeAssoc
  rw [lookupKey_append, lookupKey_map_override]
  cases ha : lookupKey a key with
  | none => simp [Option.orElse, lookupKey_filter_kept a b key ha, h]
  | some u => simp [Option.orElse, h]

/-- Keys of a spread: any key of either operand is a key of the merge. -/
theorem mem_keys_mergeAssoc_of_right {α : Type} (a b : List (String × α)) (key : String)
    (h : key ∈ keysOf b) : key ∈ keysOf (mergeAssoc a b) := by
  cases hb : lookupKey b key with
  | none => exact absurd ((lookupKey_eq_none_iff b key).mp hb) (not_not_intro h)
  | some v =>
    have := lookupKey_mergeAssoc_right a b key v hb
    by_contra hmem
    rw [(lookupKey_eq_none_iff (mergeAssoc a b) key).mpr hmem] at this
    exact Option.noConfusion this

/-- Spreading with disjoint keys is concatenation. -/
theorem mergeAssoc_disjoint {α : Type} (a b : List (String × α))
    (hab : ∀ k ∈ keysOf a, lookupKey b k = none)
    (hba : ∀ k ∈ keysOf b, lookupKey a k = none) :
    mergeAssoc a b = a ++ b := by
  unfold mergeAssoc
  congr 1
  · have hmap : ∀ p ∈ a, (fun (p : String × α) =>
        match lookupKey b p.1 with
        | some w => (p.1, w)
        | none => p) p = id p := by
      intro p hp
      have := hab p.1 (List.mem_map_of_mem Prod.fst hp)
      simp [this]
    rw [List.map_congr_left hmap, List.map_id]
  · apply List.filter_eq_self.mpr
    intro p hp
    have := hba p.1 (List.mem_map_of_mem Prod.fst hp)
    simp [this]

@[simp] theorem mergeAssoc_nil_right {α : Type} (a : List (String × α)) :
    mergeAssoc a [] = a := by
  unfold mergeAssoc
  simp

theorem lookupKey_setField (d : List (String × Value)) (f : String) (v : Value)
    (key : String) :
    lookupKey (setField d f v) key = if f = key then some v else lookupKey d key := by
  by_cases h : f = key
  · subst h
    exact lookupKey_mergeAssoc_right d [(f, v)] f v (by simp) |>.trans (by simp)
  · rw [setField, lookupKey_mergeAssoc_left d [(f, v)] key (by simp [h]), if_neg h]

theorem getField_setField (r : Row) (f : String) (v : Value) (k : String) :
    getField (setField r f v) k = if f = k then v else getField r k := by
  unfold getField
  rw [lookupKey_setField]
  by_cases h : f = k <;> simp [h]

theorem applyFilter_ok (table : String) (allowed : List String) (f : Filter)
    (h : ∀ k ∈ keysOf f, fieldAllowedB allowed k = true) :
    ∃ p, applyFilter table allowed f = .ok p ∧ ∀ r, p r = filterMatches f r := by
  induction f with
  | nil => exact ⟨fun _ => true, rfl, fun r => rfl⟩
  | cons e rest ih =>
    obtain ⟨k, fv⟩ := e
    have hk : fieldAllowedB allowed k = true :=
      h k (by rw [keysOf_cons]; exact List.mem_cons_self _ _)
    obtain ⟨p, hp, hpr⟩ :=
      ih (fun k' hk' => h k' (by rw [keysOf_cons]; exact List.mem_cons_of_mem _ hk'))
    refine ⟨fun r => filterValPred k fv r && p r, ?_, ?_⟩
    · simp [applyFilter, assertFieldAllowed, hk, hp]
    · intro r
      simp [filterMatches, hpr r]

theorem applyFilter_error (table : String) (allowed : List String) (f : Filter)
    (k : String) (hmem : k ∈ keysOf f) (hk : fieldAllowedB allowed k = false) :
    ∃ e, applyFilter table allowed f = .error e := by
  induction f with
  | nil => simp [keysOf] at hmem
  | cons entry rest ih =>
    obtain ⟨k0, fv⟩ := entry
    cases h0 : fieldAllowedB allowed k0 with
    | false =>
      refine ⟨.fieldNotAllowed k0 table, ?_⟩
      simp [applyFilter, assertFieldAllowed, h0]
    | true =>
      have hne : k ≠ k0 := fun h => by rw [h, h0] at hk; exact Bool.noConfusion hk
      have hmem' : k ∈ keysOf rest := by
        rw [keysOf_cons] at hmem
        exact (List.mem_cons.mp hmem).resolve_left hne
      obtain ⟨e, he⟩ := ih hmem'
      exact ⟨e, by simp [applyFilter, assertFieldAllowed, h0, he]⟩

theorem countP_flatMap {α β : Type} (l : List α) (f : α → List β) (p : β → Bool) :
    (l.flatMap f).countP p = (l.map (fun a => (f a).countP p)).sum := by
  induction l with
  | nil => simp
  | cons x xs ih => simp [List.flatMap_cons, List.countP_append, ih]

theorem filter_flatMap {α β : Type} (l : List α) (f : α → List β) (p : β → Bool) :
    (l.flatMap f).filter p = l.flatMap (fun a => (f a).filter p) := by
  induction l with
  | nil => simp
  | cons x xs ih => simp [List.flatMap_cons, List.filter_append, ih]

theorem sum_map_const_one {α : Type} (l : List α) :
    (l.map (fun _ => (1 : Nat))).sum = l.length := by
  induction l with
  | nil => simp
  | cons x xs ih => simp [ih]; omega

theorem flatMap_singleton_of_mem {α β : Type} (l : List α) (q : α → Prop)
    [DecidablePred q] (g : α → β) (h : ∀ a ∈ l, q a) :
    l.flatMap (fun a => if q a then [g a] else []) = l.map g := by
  induction l with
  | nil => simp
  | cons x xs ih =>
    rw [List.flatMap_cons, if_pos (h x (List.mem_cons_self _ _)),
      ih (fun a ha => h a (List.mem_cons_of_mem _ ha)), List.map_cons, List.singleton_append]

theorem mongoEvents_range_succ (f attempt : Nat) :
    ((List.range (f + 1 + 1)).flatMap
      fun j => mongoAttemptEvents (attempt + j) (decide (j < f + 1))) =
    mongoAttemptEvents attempt true ++
      ((List.range (f + 1)).flatMap
        fun j => mongoAttemptEvents (attempt + 1 + j) (decide (j < f))) := by
  rw [List.range_succ_eq_map, List.flatMap_cons, List.flatMap_map]
  congr 1
  · show mongoAttemptEvents (attempt + 0) (decide (0 < f + 1)) = mongoAttemptEvents attempt true
    simp
  · apply List.flatMap_congr
    intro j hj
    show mongoAttemptEvents (attempt + Nat.succ j) (decide (Nat.succ j < f + 1)) =
      mongoAttemptEvents (attempt + 1 + j) (decide (j < f))
    have h1 : attempt + Nat.succ j = attempt + 1 + j := by omega
    have h2 : decide (Nat.succ j < f + 1) = decide (j < f) := by
      simp [Nat.succ_lt_succ_iff]
    rw [h1, h2]

theorem mongoTxLoop_allFail {ε α : Type} (classify : ε → Bool) (run : Nat → Except ε α)
    (errs : Nat → ε) (hrun : ∀ n, run n = .error (errs n))
    (hcl : ∀ n, classify (errs n) = true) :
    ∀ fuel attempt, mongoTxLoop classify run attempt fuel =
      (Except.error (errs (attempt + fuel)),
       (List.range (fuel + 1)).flatMap
         (fun j => mongoAttemptEvents (attempt + j) (decide (j < fuel)))) := by
  intro fuel
  induction fuel with
  | zero =>
    intro attempt
    simp [mongoTxLoop, hrun attempt, hcl attempt, mongoAttemptEvents, List.range_succ]
  | succ f ih =>
    intro attempt
    have hadd : attempt + 1 + f = attempt + (f + 1) := by omega
    rw [mongoTxLoop]
    simp only [hrun attempt]
    rw [if_pos (hcl attempt), ih (attempt + 1), mongoEvents_range_succ f attempt, hadd]
    simp [mongoAttemptEvents]

theorem pgEvents_range_succ (f attempt : Nat) :
    ((List.range (f + 1 + 1)).flatMap
      fun j => pgAttemptEvents (attempt + j) (decide (j < f + 1))) =
    pgAttemptEvents attempt true ++
      ((List.range (f + 1)).flatMap
        fun j => pgAttemptEvents (attempt + 1 + j) (decide (j < f))) := by
  rw [List.range_succ_eq_map, List.flatMap_cons, List.flatMap_map]
  congr 1
  · show pgAttemptEvents (attempt + 0) (decide (0 < f + 1)) = pgAttemptEvents attempt true
    simp
  · apply List.flatMap_congr
    intro j hj
    show pgAttemptEvents (attempt + Nat.succ j) (decide (Nat.succ j < f + 1)) =
      pgAttemptEvents (attempt + 1 + j) (decide (j < f))
    have h1 : attempt + Nat.succ j = attempt + 1 + j := by omega
    have h2 : decide (Nat.succ j < f + 1) = decide (j < f) := by
      simp [Nat.succ_lt_succ_iff]
    rw [h1, h2]

theorem pgTxLoop_allFail {ε α : Type} (classify : ε → Bool) (run : Nat → Except ε α)
    (errs : Nat → ε) (hrun : ∀ n, run n = .error (errs n))
    (hcl : ∀ n, classify (errs n) = true) :
    ∀ fuel attempt, pgTxLoop classify run attempt fuel =
      (Except.error (errs (attempt + fuel)),
       (List.range (fuel + 1)).flatMap
         (fun j => pgAttemptEvents (attempt + j) (decide (j < fuel)))) := by
  intro fuel
  induction fuel with
  | zero =>
    intro attempt
    simp [pgTxLoop, hrun attempt, hcl attempt, pgAttemptEvents, List.range_succ]
  | succ f ih =>
    intro attempt
    have hadd : attempt + 1 + f = attempt + (f + 1) := by omega
    rw [pgTxLoop]
    simp only [hrun attempt]
    rw [if_pos (hcl attempt), ih (attempt + 1), pgEvents_range_succ f attempt, hadd]
    simp [pgAttemptEvents]

theorem mongoAttemptEvents_countP_run (j : Nat) (b : Bool) :
    (mongoAttemptEvents j b).countP isRunCallbackEv = 1 := by
  cases b <;> simp [mongoAttemptEvents, isRunCallbackEv, List.countP_cons, List.countP_append]

theorem mongoAttemptEvents_countP_start (j : Nat) (b : Bool) :
    (mongoAttemptEvents j b).countP isStartSessionEv = 1 := by
  cases b <;> simp [mongoAttemptEvents, isStartSessionEv, List.countP_cons, List.countP_append]

theorem mongoAttemptEvents_countP_end (j : Nat) (b : Bool) :
    (mongoAttemptEvents j b).countP isEndSessionEv = 1 := by
  cases b <;> simp [mongoAttemptEvents, isEndSessionEv, List.countP_cons, List.countP_append]

theorem mongoAttemptEvents_filter_sleep (j : Nat) (b : Bool) :
    (mongoAttemptEvents j b).filter isSleepEv =
      if b then [.sleep (backoffMs j)] else [] := by
  cases b <;> simp [mongoAttemptEvents, isSleepEv]

theorem pgAttemptEvents_countP_run (j : Nat) (b : Bool) :
    (pgAttemptEvents j b).countP isRunCallbackEv = 1 := by
  cases b <;> simp [pgAttemptEvents, isRunCallbackEv, List.countP_cons, List.countP_append]

theorem pgAttemptEvents_filter_sleep (j : Nat) (b : Bool) :
    (pgAttemptEvents j b).filter isSleepEv =
      if b then [.sleep (backoffMs j)] else [] := by
  cases b <;> simp [pgAttemptEvents, isSleepEv]

theorem countP_flatMap_one (l : List Nat) (f : Nat → Bool → List TxEvent)
    (p : TxEvent → Bool) (b : Nat → Bool) (h : ∀ j c, (f j c).countP p = 1) :
    (l.flatMap (fun j => f j (b j))).countP p = l.length := by
  rw [countP_flatMap, List.map_congr_left (fun j _ => h j (b j)), sum_map_const_one]

theorem filter_flatMap_sleep (N : Nat) (f : Nat → Bool → List TxEvent)
    (h : ∀ j c, (f j c).filter isSleepEv =
      if c then [TxEvent.sleep (backoffMs j)] else []) :
    ((List.range (N + 1)).flatMap (fun j => f j (decide (j < N)))).filter isSleepEv =
      (List.range N).map (fun i => .sleep (backoffMs i)) := by
  rw [filter_flatMap]
  have hcg : ∀ j ∈ List.range (N + 1),
      (f j (decide (j < N))).filter isSleepEv =
        if j < N then [TxEvent.sleep (backoffMs j)] else [] := by
    intro j hj
    rw [h j _]
    by_cases hjN : j < N <;> simp [hjN]
  rw [List.flatMap_congr hcg, List.range_succ, List.flatMap_append]
  have hlast : ([N].flatMap
      (fun j => if j < N then [TxEvent.sleep (backoffMs j)] else [])) = [] := by
    simp
  rw [hlast, List.append_nil]
  exact flatMap_singleton_of_mem _ _ _ (fun a ha => List.mem_range.mp ha)

theorem mem_of_lookupKey {α : Type} (l : List (String × α)) (k : String) (v : α)
    (h : lookupKey l k = some v) : (k, v) ∈ l := by
  induction l with
  | nil => simp at h
  | cons p rest ih =>
    obtain ⟨k0, v0⟩ := p
    by_cases h0 : k0 = k
    · subst h0
      simp at h
      simp [h]
    · simp [h0] at h
      exact List.mem_cons_of_mem _ (ih h)

theorem mem_keysOf_mergeAssoc {α : Type} (a b : List (String × α)) (k : String)
    (h : k ∈ keysOf (mergeAssoc a b)) : k ∈ keysOf a ∨ k ∈ keysOf b := by
  unfold mergeAssoc at h
  rw [keysOf, List.map_append] at h
  rcases List.mem_append.mp h with h | h
  · left
    obtain ⟨p, hp, hfst⟩ := List.mem_map.mp (by rwa [List.map_map] at h)
    refine List.mem_map.mpr ⟨p, hp, ?_⟩
    rw [← hfst]
    cases hl : lookupKey b p.1 <;> simp [Function.comp, hl]
  · right
    obtain ⟨p, hp, hfst⟩ := List.mem_map.mp h
    exact List.mem_map.mpr ⟨p, List.mem_of_mem_filter hp, hfst⟩

theorem mem_keys_mergeAssoc_of_left {α : Type} (a b : List (String × α)) (k : String)
    (h : k ∈ keysOf a) : k ∈ keysOf (mergeAssoc a b) := by
  unfold mergeAssoc keysOf
  rw [List.map_append]
  apply List.mem_append.mpr
  left
  rw [List.map_map]
  obtain ⟨p, hp, hfst⟩ := List.mem_map.mp h
  refine List.mem_map.mpr ⟨p, hp, ?_⟩
  rw [← hfst]
  cases hl : lookupKey b p.1 <;> simp [Function.comp, hl]

theorem map_if_eq_self {α : Type} (l : List α) (c : α → Bool) (f : α → α)
    (h : ∀ a ∈ l, c a = false) :
    l.map (fun a => if c a then f a else a) = l := by
  induction l with
  | nil => rfl
  | cons x xs ih =>
    rw [List.map_cons, h x (List.mem_cons_self _ _),
      ih (fun a ha => h a (List.mem_cons_of_mem _ ha))]
    simp

theorem opsPred_isNull_only (rv : Value) :
    opsPred { isNull := true } rv = (rv == .vNull) := by
  simp [opsPred]

theorem opsPred_isNotNull_only (rv : Value) :
    opsPred { isNotNull := true } rv = (rv != .vNull) := by
  simp [opsPred]

theorem filterValPred_congr (k : String) (fv : FilterVal) (r r' : Row)
    (h : getField r k = getField r' k) :
    filterValPred k fv r = filterValPred k fv r' := by
  cases fv <;> simp [filterValPred, h]

theorem filterMatches_setField_of_not_mem (f : Filter) (r : Row) (key : String)
    (v : Value) (h : lookupKey f key = none) :
    filterMatches f (setField r key v) = filterMatches f r := by
  induction f with
  | nil => rfl
  | cons p rest ih =>
    obtain ⟨k0, fv⟩ := p
    have hk0 : ¬ (k0 = key) := by
      intro he
      subst he
      simp at h
    simp only [lookupKey_cons, if_neg hk0] at h
    have hfield : getField (setField r key v) k0 = getField r k0 := by
      rw [getField_setField, if_neg (fun he => hk0 he.symm)]
    unfold filterMatches at *
    simp only [List.all_cons, ih h,
      filterValPred_congr k0 fv (setField r key v) r hfield]

theorem sqlScalarEq_self (v : Value) (h : v ≠ .vNull) : sqlScalarEq v v = true := by
  cases v with
  | vNull => exact absurd rfl h
  | vBool b => simp [sqlScalarEq]
  | vInt n => simp [sqlScalarEq]
  | vStr s => simp [sqlScalarEq]
  | vDate t => simp [sqlScalarEq]

theorem filterMatches_append (f g : Filter) (r : Row) :
    filterMatches (f ++ g) r = (filterMatches f r && filterMatches g r) := by
  unfold filterMatches
  exact List.all_append

theorem filterMatches_single (k : String) (fv : FilterVal) (r : Row) :
    filterMatches [(k, fv)] r = filterValPred k fv r := by
  simp [filterMatches]

theorem filterMatches_false_of_entry (f : Filter) (r : Row) (k : String)
    (fv : FilterVal) (hmem : (k, fv) ∈ f) (hfail : filterValPred k fv r = false) :
    filterMatches f r = false := by
  unfold filterMatches
  rw [List.all_eq_false]
  exact ⟨(k, fv), hmem, by simp [hfail]⟩

/-- **C4**: for every data slice, page, limit and total, the page-result
shaper returns `{data, page, limit, total, pages}` with `page` and `limit`
echoed back unmodified (no clamping), `pages = max(1, ceil(total/limit))`
where a zero `limit` is guarded by treating the divisor as `1` (so it cannot
raise a division error), hence `pages ≥ 1` even when `total = 0`; the Mongo
shaper computes the identical envelope. -/
theorem C4_shapePage_contract {T : Type} (data : List T) (page limit total : Int) :
    shapePage data page limit total =
      { data := data, page := page, limit := limit, total := total,
        pages := max 1 (Int.ceil
          ((total : ℚ) / (((if limit = 0 then 1 else limit) : Int) : ℚ))) } ∧
    1 ≤ (shapePage data page limit total).pages ∧
    mongoShapePage data page limit total = shapePage data page limit total := by
  refine ⟨?_, ?_, rfl⟩
  · have h0 : jsOrDefault total 0 = total := by
      unfold jsOrDefault
      split <;> omega
    unfold shapePage
    rw [h0]
    rfl
  · exact le_max_left _ _

/-- **C6**: the repository built by `createRepository` exposes each of the
six soft-delete capabilities (`softDelete`, `softDeleteMany`, `restore`,
`restoreMany`, `findAllWithDeleted`, `findDeleted`) precisely when the
entity configuration enables soft delete; when disabled the fields are
structurally `undefined` (`none`), on both backends. -/
theorem C6_softDelete_capabilities_iff :
    (∀ cfg : PostgresEntityConfig,
      (pgCreateRepository cfg).softDelete.isSome = softDeleteEnabledOf cfg ∧
      (pgCreateRepository cfg).softDeleteMany.isSome = softDeleteEnabledOf cfg ∧
      (pgCreateRepository cfg).restore.isSome = softDeleteEnabledOf cfg ∧
      (pgCreateRepository cfg).restoreMany.isSome = softDeleteEnabledOf cfg ∧
      (pgCreateRepository cfg).findAllWithDeleted.isSome = softDeleteEnabledOf cfg ∧
      (pgCreateRepository cfg).findDeleted.isSome = softDeleteEnabledOf cfg) ∧
    (∀ opts : MongoRepositoryOptions,
      (mongoCreateRepository opts).softDelete.isSome = mongoSoftDeleteEnabledOf opts ∧
      (mongoCreateRepository opts).softDeleteMany.isSome = mongoSoftDeleteEnabledOf opts ∧
      (mongoCreateRepository opts).restore.isSome = mongoSoftDeleteEnabledOf opts ∧
      (mongoCreateRepository opts).restoreMany.isSome = mongoSoftDeleteEnabledOf opts ∧
      (mongoCreateRepository opts).findAllWithDeleted.isSome = mongoSoftDeleteEnabledOf opts ∧
      (mongoCreateRepository opts).findDeleted.isSome = mongoSoftDeleteEnabledOf opts) := by
  constructor
  · intro cfg
    cases h : softDeleteEnabledOf cfg <;> simp [pgCreateRepository, h]
  · intro opts
    cases h : mongoSoftDeleteEnabledOf opts <;> simp [mongoCreateRepository, h]

/-- **C10**: on both backends, `insertMany` applied to the empty list
resolves to the empty array with the table untouched and without invoking
the driver insert primitive (third component `false`); in particular no
timestamps are written. -/
theorem C10_insertMany_empty :
    (∀ (cfg : PostgresEntityConfig) (now : Nat) (tbl : List Row),
      pgInsertMany cfg now tbl [] = ([], tbl, false)) ∧
    (∀ (opts : MongoRepositoryOptions) (now : Nat) (tbl : List Row),
      mongoInsertMany opts now tbl [] = ([], tbl, false)) :=
  ⟨fun _ _ _ => rfl, fun _ _ _ => rfl⟩

/-- **C2**: with `retries = N` and a callback that on every attempt throws an
error the classifier accepts, both coordinators perform exactly `N+1`
attempts and rethrow the last classified error; the document coordinator
opens exactly one fresh session per attempt and releases it on every exit
path (`endSession`, sitting in a `finally`, closes every attempt block);
each inter-attempt sleep is `min(100*2^attempt, 3000)` ms. The first two
conjuncts give the complete event traces in closed form; the remaining ones
state the attempt, session and sleep counts the claim names. -/
theorem C2_withTransaction_retry_budget {ε α : Type} (classify : ε → Bool)
    (run : Nat → Except ε α) (errs : Nat → ε) (retries : Nat)
    (hrun : ∀ n, run n = .error (errs n)) (hcl : ∀ n, classify (errs n) = true) :
    mongoWithTransaction classify run retries =
      (Except.error (errs retries),
        (List.range (retries + 1)).flatMap
          (fun j => mongoAttemptEvents j (decide (j < retries)))) ∧
    pgWithTransaction classify run retries =
      (Except.error (errs retries),
        (List.range (retries + 1)).flatMap
          (fun j => pgAttemptEvents j (decide (j < retries)))) ∧
    (mongoWithTransaction classify run retries).2.countP isRunCallbackEv = retries + 1 ∧
    (mongoWithTransaction classify run retries).2.countP isStartSessionEv = retries + 1 ∧
    (mongoWithTransaction classify run retries).2.countP isEndSessionEv = retries + 1 ∧
    (mongoWithTransaction classify run retries).2.filter isSleepEv
      = (List.range retries).map (fun i => .sleep (backoffMs i)) ∧
    (pgWithTransaction classify run retries).2.countP isRunCallbackEv = retries + 1 ∧
    (pgWithTransaction classify run retries).2.filter isSleepEv
      = (List.range retries).map (fun i => .sleep (backoffMs i)) := by
  have hm := mongoTxLoop_allFail classify run errs hrun hcl retries 0
  have hp := pgTxLoop_allFail classify run errs hrun hcl retries 0
  simp only [Nat.zero_add] at hm hp
  have hm' : mongoWithTransaction classify run retries =
      (Except.error (errs retries),
        (List.range (retries + 1)).flatMap
          (fun j => mongoAttemptEvents j (decide (j < retries)))) := hm
  have hp' : pgWithTransaction classify run retries =
      (Except.error (errs retries),
        (List.range (retries + 1)).flatMap
          (fun j => pgAttemptEvents j (decide (j < retries)))) := hp
  refine ⟨hm', hp', ?_, ?_, ?_, ?_, ?_, ?_⟩
  · rw [hm']
    rw [countP_flatMap_one _ _ _ _ mongoAttemptEvents_countP_run, List.length_range]
  · rw [hm']
    rw [countP_flatMap_one _ _ _ _ mongoAttemptEvents_countP_start, List.length_range]
  · rw [hm']
    rw [countP_flatMap_one _ _ _ _ mongoAttemptEvents_countP_end, List.length_range]
  · rw [hm']
    exact filter_flatMap_sleep retries _ mongoAttemptEvents_filter_sleep
  · rw [hp']
    rw [countP_flatMap_one _ _ _ _ pgAttemptEvents_countP_run, List.length_range]
  · rw [hp']
    exact filter_flatMap_sleep retries _ pgAttemptEvents_filter_sleep

theorem C2_withTransaction_retry_budget_witness :
    mongoWithTransaction (fun _ : Nat => true)
        (fun n => (Except.error n : Except Nat Nat)) 2 =
      (Except.error 2,
        (List.range 3).flatMap (fun j => mongoAttemptEvents j (decide (j < 2)))) ∧
    pgWithTransaction (fun _ : Nat => true)
        (fun n => (Except.error n : Except Nat Nat)) 2 =
      (Except.error 2,
        (List.range 3).flatMap (fun j => pgAttemptEvents j (decide (j < 2)))) ∧
    (mongoWithTransaction (fun _ : Nat => true)
        (fun n => (Except.error n : Except Nat Nat)) 2).2.countP isRunCallbackEv = 3 ∧
    (mongoWithTransaction (fun _ : Nat => true)
        (fun n => (Except.error n : Except Nat Nat)) 2).2.countP isStartSessionEv = 3 ∧
    (mongoWithTransaction (fun _ : Nat => true)
        (fun n => (Except.error n : Except Nat Nat)) 2).2.countP isEndSessionEv = 3 ∧
    (mongoWithTransaction (fun _ : Nat => true)
        (fun n => (Except.error n : Except Nat Nat)) 2).2.filter isSleepEv
      = (List.range 2).map (fun i => .sleep (backoffMs i)) ∧
    (pgWithTransaction (fun _ : Nat => true)
        (fun n => (Except.error n : Except Nat Nat)) 2).2.countP isRunCallbackEv = 3 ∧
    (pgWithTransaction (fun _ : Nat => true)
        (fun n => (Except.error n : Except Nat Nat)) 2).2.filter isSleepEv
      = (List.range 2).map (fun i => .sleep (backoffMs i)) :=
  C2_withTransaction_retry_budget (fun _ => true) (fun n => Except.error n)
    (fun n => n) 2 (fun _ => rfl) (fun _ => rfl)

/-- **C3 counterexample**: the driver error with code 13435
(not-primary-no-secondary-ok) carries neither the transient-transaction
label nor any of the five replica-set codes the claim names as the exact
retryable set, yet `isTransientError` accepts it — so the claimed "exactly"
characterisation of the document-backend classifier is false. -/
theorem C3_counterexample :
    isTransientError { errorLabels := none, code := some 13435 } = true ∧
    ¬ (hasTransientLabel { errorLabels := none, code := some 13435 } = true ∨
       ∃ c ∈ specNamedMongoCodes,
         ({ errorLabels := none, code := some 13435 } : MongoDriverError).code = some c) := by
  constructor
  · decide
  · decide

/-- **C3 (amended)**: `withTransaction` retries an attempt precisely when the
backend classifier accepts the thrown error. The relational classifier
accepts exactly the codes for serialization failure, deadlock detected, lock
not available, admin shutdown and query canceled; the document classifier
accepts exactly errors carrying the driver transient-transaction-error label
or one of the codes 11600, 11602, 10107, 13435, 13436, 189, 91 — i.e. the
five replica-set codes the claim names PLUS not-primary-no-secondary-ok
(13435) and not-primary-or-secondary (13436). Every other error is rethrown
from the current attempt immediately: one callback invocation, no sleep, and
on the document backend the session is still released. -/
theorem C3_retry_classification :
    (∀ e : PgDriverError,
      isRetryableError e = true ↔ ∃ c ∈ pgRetryableCodes, e.code = some c) ∧
    (∀ e : MongoDriverError,
      isTransientError e = true ↔
        (hasTransientLabel e = true ∨ ∃ c ∈ mongoRetryableCodes, e.code = some c)) ∧
    (∀ (ε α : Type) (classify : ε → Bool) (run : Nat → Except ε α) (e : ε)
        (retries : Nat), run 0 = .error e → classify e = false →
      mongoWithTransaction classify run retries = (.error e, mongoAttemptEvents 0 false) ∧
      pgWithTransaction classify run retries = (.error e, pgAttemptEvents 0 false)) := by
  refine ⟨?_, ?_, ?_⟩
  · intro e
    cases hc : e.code with
    | none => simp [isRetryableError, hc]
    | some c =>
      simp only [isRetryableError, hc]
      constructor
      · intro h
        have hmem : c ∈ pgRetryableCodes :=
          List.elem_iff.mp (Bool.and_elim_right h)
        exact ⟨c, hmem, rfl⟩
      · rintro ⟨c', hc', hsome⟩
        have : c = c' := by injection hsome
        subst this
        revert hc'
        simp only [pgRetryableCodes, List.mem_cons, List.not_mem_nil, or_false]
        rintro (rfl | rfl | rfl | rfl | rfl) <;> decide
  · intro e
    cases hc : e.code with
    | none =>
      simp only [isTransientError, hc]
      constructor
      · intro h
        exact Or.inl (by simpa using h)
      · rintro (h | ⟨c, hc', hsome⟩)
        · simp [h]
        · exact absurd hsome (by simp)
    | some c =>
      simp only [isTransientError, hc]
      constructor
      · intro h
        rcases Bool.or_eq_true_iff.mp h with h' | h'
        · exact Or.inl h'
        · exact Or.inr ⟨c, List.elem_iff.mp (Bool.and_elim_right h'), rfl⟩
      · rintro (h | ⟨c', hc', hsome⟩)
        · simp [h]
        · have : c = c' := by injection hsome
          subst this
          apply Bool.or_eq_true_iff.mpr
          right
          revert hc'
          simp only [mongoRetryableCodes, List.mem_cons, List.not_mem_nil, or_false]
          rintro (rfl | rfl | rfl | rfl | rfl | rfl | rfl) <;> decide
  · intro ε α classify run e retries hrun0 hclf
    cases retries with
    | zero =>
      constructor
      · simp [mongoWithTransaction, mongoTxLoop, hrun0, mongoAttemptEvents]
      · simp [pgWithTransaction, pgTxLoop, hrun0, pgAttemptEvents]
    | succ f =>
      constructor
      · simp [mongoWithTransaction, mongoTxLoop, hrun0, hclf, mongoAttemptEvents]
      · simp [pgWithTransaction, pgTxLoop, hrun0, hclf, pgAttemptEvents]

/-- **C8**: `deleteById` resolves to `false` rather than raising when nothing
matches (assuming the involved fields pass the column whitelist, which is all
the claim's scenario uses): with soft delete disabled it returns `false` and
leaves the table unchanged when no row carries the id; with soft delete
enabled it also returns `false` when every row carrying the id is already
soft-deleted, because the injected not-deleted (`isNull`) predicate excludes
those rows from the rewrite-to-update. -/
theorem C8_deleteById_no_match_false (cfg : PostgresEntityConfig) (now : Nat)
    (tbl : List Row) (id : Value)
    (hbase : ∀ k ∈ keysOf (baseFilterOf cfg), fieldAllowedB (allowedOf cfg) k = true)
    (hsdfAllowed : fieldAllowedB (allowedOf cfg) (softDeleteFieldOf cfg) = true) :
    (softDeleteEnabledOf cfg = false →
      (∀ r ∈ tbl, sqlScalarEq (getField r (pkOf cfg)) id = false) →
      pgDeleteById cfg now tbl id = .ok (false, tbl)) ∧
    (softDeleteEnabledOf cfg = true →
      (∀ r ∈ tbl, sqlScalarEq (getField r (pkOf cfg)) id = true →
        getField r (softDeleteFieldOf cfg) ≠ .vNull) →
      pgDeleteById cfg now tbl id = .ok (false, tbl)) := by
  have hallow : ∀ k ∈ keysOf (pgBaseNotDeleted cfg), fieldAllowedB (allowedOf cfg) k = true := by
    intro k hk
    rcases mem_keysOf_mergeAssoc _ _ k hk with h | h
    · exact hbase k h
    · unfold pgNotDeletedFilter at h
      rcases hsd : softDeleteEnabledOf cfg with _ | _ <;> rw [hsd] at h
      · simp at h
      · simp at h
        subst h
        exact hsdfAllowed
  obtain ⟨p, hp, hpr⟩ := applyFilter_ok cfg.table (allowedOf cfg) (pgBaseNotDeleted cfg) hallow
  constructor
  · intro hsd hmatch
    have hm : ∀ r ∈ tbl,
        (sqlScalarEq (getField r (pkOf cfg)) id && p r) = false := by
      intro r hr
      rw [hmatch r hr, Bool.false_and]
    unfold pgDeleteById
    rw [hp, hsd]
    simp only [except_ok_bind, Bool.false_eq_true, if_false]
    have hcount : tbl.countP (fun r => sqlScalarEq (getField r (pkOf cfg)) id && p r) = 0 :=
      List.countP_eq_zero.mpr (fun r hr => by rw [hm r hr]; exact Bool.false_ne_true)
    rw [hcount]
    have hfilter : tbl.filter
        (fun r => !(sqlScalarEq (getField r (pkOf cfg)) id && p r)) = tbl :=
      List.filter_eq_self.mpr (fun r hr => by rw [hm r hr]; rfl)
    rw [hfilter]
    rfl
  · intro hsd hdel
    have hentry : (softDeleteFieldOf cfg, FilterVal.ops { isNull := true })
        ∈ pgBaseNotDeleted cfg := by
      apply mem_of_lookupKey
      apply lookupKey_mergeAssoc_right
      simp [pgNotDeletedFilter, hsd]
    have hm : ∀ r ∈ tbl,
        (sqlScalarEq (getField r (pkOf cfg)) id && p r) = false := by
      intro r hr
      rcases hpk : sqlScalarEq (getField r (pkOf cfg)) id with _ | _
      · rw [Bool.false_and]
      · have hnn := hdel r hr hpk
        have hfail : filterValPred (softDeleteFieldOf cfg)
            (FilterVal.ops { isNull := true }) r = false := by
          simp only [filterValPred, opsPred_isNull_only]
          exact beq_eq_false_iff_ne.mpr hnn
        rw [hpr r, filterMatches_false_of_entry _ r _ _ hentry hfail, Bool.and_false]
    unfold pgDeleteById
    rw [hp, hsd]
    simp only [except_ok_bind, if_true]
    have hcount : tbl.countP (fun r => sqlScalarEq (getField r (pkOf cfg)) id && p r) = 0 :=
      List.countP_eq_zero.mpr (fun r hr => by rw [hm r hr]; exact Bool.false_ne_true)
    rw [hcount, map_if_eq_self tbl _ _ hm]
    rfl

theorem C8_deleteById_no_match_false_witness :
    pgDeleteById { table := "users" } 7
      [[("id", Value.vInt 2)]] (Value.vInt 1) =
      .ok (false, [[("id", Value.vInt 2)]]) ∧
    pgDeleteById { table := "users", softDelete := some true } 7
      [[("id", Value.vInt 1), ("deleted_at", Value.vDate 3)]] (Value.vInt 1) =
      .ok (false, [[("id", Value.vInt 1), ("deleted_at", Value.vDate 3)]]) :=
  ⟨(C8_deleteById_no_match_false { table := "users" } 7
      [[("id", Value.vInt 2)]] (Value.vInt 1)
      (by decide) (by decide)).1 (by decide) (by decide),
   (C8_deleteById_no_match_false { table := "users", softDelete := some true } 7
      [[("id", Value.vInt 1), ("deleted_at", Value.vDate 3)]] (Value.vInt 1)
      (by decide) (by decide)).2 (by decide) (by decide)⟩

/-- **C9**: on the relational backend, for every configuration with soft
delete enabled and a non-empty column whitelist that does not contain the
soft-delete field, every operation that merges the injected not-deleted
predicate — `findById`, `findOne`, `findAll`, `findPage`, `count`, `exists`,
`select`, `distinct`, `updateById`, `deleteById`, `updateMany`,
`deleteMany` — fails with the field-not-allowed error before reaching the
driver, because the injected soft-delete key passes through the same
whitelist check as caller-supplied filter keys. -/
theorem C9_whitelist_rejects_softDelete_field (cfg : PostgresEntityConfig)
    (hsd : softDeleteEnabledOf cfg = true) (hne : allowedOf cfg ≠ [])
    (hnotin : softDeleteFieldOf cfg ∉ allowedOf cfg)
    (tbl : List Row) (id : Value) (filter : Filter) (update : Row) (now : Nat)
    (hook : Option HookFn) (fields : List String) (field : String) (page limit : Int) :
    isOkB (pgFindById cfg tbl id) = false ∧
    isOkB (pgFindOne cfg tbl filter) = false ∧
    isOkB (pgFindAll cfg tbl filter) = false ∧
    isOkB (pgFindPage cfg tbl filter page limit) = false ∧
    isOkB (pgCount cfg tbl filter) = false ∧
    isOkB (pgExistsOp cfg tbl filter) = false ∧
    isOkB (pgSelect cfg tbl filter fields) = false ∧
    isOkB (pgDistinct cfg tbl field filter) = false ∧
    isOkB (pgUpdateById cfg hook now tbl id update) = false ∧
    isOkB (pgDeleteById cfg now tbl id) = false ∧
    isOkB (pgUpdateMany cfg now tbl filter update) = false ∧
    isOkB (pgDeleteMany cfg now tbl filter) = false := by
  have h1 : (allowedOf cfg).isEmpty = false := by
    rcases h : allowedOf cfg with _ | ⟨x, xs⟩
    · exact absurd h hne
    · rfl
  have h2 : (allowedOf cfg).contains (softDeleteFieldOf cfg) = false := by
    rcases hc : (allowedOf cfg).contains (softDeleteFieldOf cfg) with _ | _
    · rfl
    · exact absurd (List.elem_iff.mp hc) hnotin
  have hfa : fieldAllowedB (allowedOf cfg) (softDeleteFieldOf cfg) = false := by
    unfold fieldAllowedB
    rw [h1, h2]
    rfl
  have hkey1 : softDeleteFieldOf cfg ∈ keysOf (pgBaseNotDeleted cfg) := by
    apply mem_keys_mergeAssoc_of_right
    simp [pgNotDeletedFilter, hsd, keysOf]
  have hkey2 : softDeleteFieldOf cfg ∈ keysOf (pgReadMergedFilter cfg filter) :=
    mem_keys_mergeAssoc_of_left _ _ _ hkey1
  obtain ⟨e1, he1⟩ :=
    applyFilter_error cfg.table (allowedOf cfg) (pgBaseNotDeleted cfg) _ hkey1 hfa
  obtain ⟨e2, he2⟩ :=
    applyFilter_error cfg.table (allowedOf cfg) (pgReadMergedFilter cfg filter) _ hkey2 hfa
  refine ⟨?_, ?_, ?_, ?_, ?_, ?_, ?_, ?_, ?_, ?_, ?_, ?_⟩
  · unfold pgFindById; rw [he1]; rfl
  · unfold pgFindOne; rw [he2]; rfl
  · unfold pgFindAll; rw [he2]; rfl
  · unfold pgFindPage; rw [he2]; rfl
  · unfold pgCount; rw [he2]; rfl
  · unfold pgExistsOp; rw [he2]; rfl
  · unfold pgSelect; rw [he2]; rfl
  · unfold pgDistinct; rw [he2]; rfl
  · unfold pgUpdateById; rw [he1]; rfl
  · unfold pgDeleteById; rw [he1]; rfl
  · unfold pgUpdateMany; rw [he2]; rfl
  · unfold pgDeleteMany; rw [he2]; rfl

theorem C9_whitelist_rejects_softDelete_field_witness :
    isOkB (pgFindById whitelistedCfg [] (Value.vInt 1)) = false ∧
    isOkB (pgFindAll whitelistedCfg [] []) = false ∧
    isOkB (pgDeleteById whitelistedCfg 0 [] (Value.vInt 1)) = false := by
  have h := C9_whitelist_rejects_softDelete_field whitelistedCfg
    (by decide) (by decide) (by decide)
    [] (Value.vInt 1) [] [] 0 none [] "id" 1 10
  exact ⟨h.1, h.2.2.1, h.2.2.2.2.2.2.2.2.2.1⟩

/-- **C7**: for every create call with timestamps enabled, the before-create
hook runs first and the timestamp overlay second: in the payload handed to
the driver every field other than the configured created-at field equals the
hook's output unchanged, while the created-at field itself carries the
current instant; `create` inserts exactly this payload. The overlay thus
never overwrites a caller- or hook-supplied field other than the timestamp
field itself. -/
theorem C7_create_hook_then_timestamp (cfg : PostgresEntityConfig)
    (hook : Option HookFn) (now : Nat) (tbl : List Row) (data : Row)
    (hts : timestampsEnabledOf cfg = true) :
    (∀ k, k ≠ createdAtFieldOf cfg →
      getField (pgCreatePayload cfg hook now data) k
        = getField (runBeforeCreate hook data) k) ∧
    getField (pgCreatePayload cfg hook now data) (createdAtFieldOf cfg) = .vDate now ∧
    (pgCreate cfg hook now tbl data).1 = pgCreatePayload cfg hook now data ∧
    (pgCreate cfg hook now tbl data).2 = tbl ++ [pgCreatePayload cfg hook now data] := by
  refine ⟨?_, ?_, rfl, rfl⟩
  · intro k hk
    unfold pgCreatePayload addCreatedAt
    rw [hts]
    simp only [if_true]
    rw [getField_setField, if_neg (fun he => hk he.symm)]
  · unfold pgCreatePayload addCreatedAt
    rw [hts]
    simp only [if_true]
    rw [getField_setField, if_pos rfl]

theorem C7_create_hook_then_timestamp_witness :
    getField (pgCreatePayload timestampedCfg (some renameHook) 5
        [("name", Value.vStr "Ann")]) "name"
      = getField (runBeforeCreate (some renameHook) [("name", Value.vStr "Ann")]) "name" ∧
    getField (pgCreatePayload timestampedCfg (some renameHook) 5
        [("name", Value.vStr "Ann")]) "created_at" = .vDate 5 :=
  have h := C7_create_hook_then_timestamp timestampedCfg (some renameHook) 5 []
    [("name", Value.vStr "Ann")] (by decide)
  ⟨h.1 "name" (by decide), h.2.1⟩

/-- **C1 counterexample**: on the document backend the claimed precedence
fails. With soft delete enabled, a caller filter that explicitly selects
`deletedAt = 5` is overridden by the injected not-deleted predicate, which is
spread last: `findAll` returns no documents although the store holds a
matching one, whereas merging in the claimed order (caller last) would have
returned it; the merged filter the code builds maps the soft-delete key to
the injected `$eq: null` condition, not to the caller's value. -/
theorem C1_counterexample :
    mongoFindAll { softDelete := some true }
      [[("_id", Value.vInt 1), ("deletedAt", Value.vInt 5)]]
      [("deletedAt", .lit (Value.vInt 5))] = [] ∧
    List.filter (mongoMatches (mergeAssoc
        (mongoNotDeletedFilter { softDelete := some true })
        [("deletedAt", MongoCond.lit (Value.vInt 5))]))
      [[("_id", Value.vInt 1), ("deletedAt", Value.vInt 5)]]
      = [[("_id", Value.vInt 1), ("deletedAt", Value.vInt 5)]] ∧
    lookupKey (mongoReadMergedFilter { softDelete := some true }
        [("deletedAt", MongoCond.lit (Value.vInt 5))]) "deletedAt"
      = some (MongoCond.mEq Value.vNull) := by
  refine ⟨?_, ?_, ?_⟩ <;> decide

/-- **C1 (amended)**: on the relational backend every read operation taking a
caller filter merges `{...baseFilter, ...notDeletedFilter, ...filter}`, so
for any key present in both the caller's value is the one applied. On the
document backend there is no default filter and the merge is
`{...filter, ...notDeletedFilter}`: the caller's value wins for every key
except the soft-delete field, for which the injected not-deleted predicate
(spread last) always wins when soft delete is enabled. -/
theorem C1_filter_merge_precedence :
    (∀ (cfg : PostgresEntityConfig) (filter : Filter) (k : String) (v : FilterVal),
      lookupKey filter k = some v →
      lookupKey (pgReadMergedFilter cfg filter) k = some v) ∧
    (∀ (opts : MongoRepositoryOptions) (filter : MongoFilter) (k : String)
        (c : MongoCond),
      lookupKey (mongoNotDeletedFilter opts) k = none →
      lookupKey filter k = some c →
      lookupKey (mongoReadMergedFilter opts filter) k = some c) ∧
    (∀ (opts : MongoRepositoryOptions) (filter : MongoFilter),
      mongoSoftDeleteEnabledOf opts = true →
      lookupKey (mongoReadMergedFilter opts filter) (mongoSoftDeleteFieldOf opts)
        = some (MongoCond.mEq Value.vNull)) := by
  refine ⟨?_, ?_, ?_⟩
  · intro cfg filter k v h
    exact lookupKey_mergeAssoc_right _ _ _ _ h
  · intro opts filter k c hn h
    rw [mongoReadMergedFilter, lookupKey_mergeAssoc_left _ _ _ hn]
    exact h
  · intro opts filter hsd
    apply lookupKey_mergeAssoc_right
    simp [mongoNotDeletedFilter, hsd]

theorem C1_filter_merge_precedence_witness :
    lookupKey (pgReadMergedFilter defaultFilteredCfg
        [("status", FilterVal.scalar (Value.vStr "archived"))]) "status"
      = some (FilterVal.scalar (Value.vStr "archived")) ∧
    lookupKey (mongoReadMergedFilter { softDelete := some true }
        [("name", MongoCond.lit (Value.vStr "Ann"))]) "name"
      = some (MongoCond.lit (Value.vStr "Ann")) ∧
    lookupKey (mongoReadMergedFilter { softDelete := some true } []) "deletedAt"
      = some (MongoCond.mEq Value.vNull) :=
  ⟨C1_filter_merge_precedence.1 defaultFilteredCfg
      [("status", FilterVal.scalar (Value.vStr "archived"))] "status" _ (by decide),
   C1_filter_merge_precedence.2.1 { softDelete := some true }
      [("name", MongoCond.lit (Value.vStr "Ann"))] "name" _ (by decide) (by decide),
   C1_filter_merge_precedence.2.2 { softDelete := some true } [] (by decide)⟩

/-- **C5**: for a soft-delete-enabled entity (whose involved fields pass the
whitelist, whose default filter does not constrain the soft-delete field and
accepts the record, and whose id is fresh and non-null), the record `row`
appended by `create` is visible via `findById`; after `softDelete(id)`
(which reports success and rewrites only that row, stamping the soft-delete
field) it is invisible to `findById` and to every other default read path —
`findAll`, `findOne`, `findPage`, `count`, `exists`, `select` and `distinct`
each behave exactly as if the soft-deleted row were not in the table, and it
is explicitly absent from `findAll`'s result — because every default read
merges the field-is-null predicate; after `restore(id)` (which clears the
field) it is visible again; and `findAllWithDeleted`, which omits the
not-deleted predicate, includes the row at every point of the sequence. -/
theorem C5_softDelete_lifecycle (cfg : PostgresEntityConfig) (tbl : List Row)
    (d row rowDel rowRes : Row) (id : Value) (now now2 : Nat)
    (hrow : row = pgCreatePayload cfg none now d)
    (hDel : rowDel = setField row (softDeleteFieldOf cfg) (.vDate now2))
    (hRes : rowRes = setField rowDel (softDeleteFieldOf cfg) .vNull)
    (h1 : softDeleteEnabledOf cfg = true)
    (h2 : pkOf cfg ≠ softDeleteFieldOf cfg)
    (h3 : getField row (pkOf cfg) = id)
    (h4 : id ≠ Value.vNull)
    (h5 : getField row (softDeleteFieldOf cfg) = Value.vNull)
    (h6 : ∀ k ∈ keysOf (baseFilterOf cfg), fieldAllowedB (allowedOf cfg) k = true)
    (h7 : fieldAllowedB (allowedOf cfg) (softDeleteFieldOf cfg) = true)
    (h8 : lookupKey (baseFilterOf cfg) (softDeleteFieldOf cfg) = none)
    (h9 : filterMatches (baseFilterOf cfg) row = true)
    (h10 : ∀ r ∈ tbl, sqlScalarEq (getField r (pkOf cfg)) id = false) :
    (pgCreate cfg none now tbl d).2 = tbl ++ [row] ∧
    pgFindById cfg (tbl ++ [row]) id = .ok (some row) ∧
    pgSoftDeleteOp cfg now2 (tbl ++ [row]) id = .ok (true, tbl ++ [rowDel]) ∧
    pgFindById cfg (tbl ++ [rowDel]) id = .ok none ∧
    pgFindAll cfg (tbl ++ [rowDel]) [] = pgFindAll cfg tbl [] ∧
    pgFindOne cfg (tbl ++ [rowDel]) [] = pgFindOne cfg tbl [] ∧
    (∀ page limit, pgFindPage cfg (tbl ++ [rowDel]) [] page limit
      = pgFindPage cfg tbl [] page limit) ∧
    pgCount cfg (tbl ++ [rowDel]) [] = pgCount cfg tbl [] ∧
    pgExistsOp cfg (tbl ++ [rowDel]) [] = pgExistsOp cfg tbl [] ∧
    (∀ fields, pgSelect cfg (tbl ++ [rowDel]) [] fields = pgSelect cfg tbl [] fields) ∧
    (∀ field, pgDistinct cfg (tbl ++ [rowDel]) field [] = pgDistinct cfg tbl field []) ∧
    (∃ l, pgFindAll cfg (tbl ++ [rowDel]) [] = .ok l ∧ rowDel ∉ l) ∧
    pgRestoreOp cfg (tbl ++ [rowDel]) id = .ok (some rowRes, tbl ++ [rowRes]) ∧
    pgFindById cfg (tbl ++ [rowRes]) id = .ok (some rowRes) ∧
    (∃ l, pgFindAllWithDeleted cfg (tbl ++ [row]) [] = .ok l ∧ row ∈ l) ∧
    (∃ l, pgFindAllWithDeleted cfg (tbl ++ [rowDel]) [] = .ok l ∧ rowDel ∈ l) ∧
    (∃ l, pgFindAllWithDeleted cfg (tbl ++ [rowRes]) [] = .ok l ∧ rowRes ∈ l) := by
  -- notation
  have hsdfne : softDeleteFieldOf cfg ≠ pkOf cfg := fun he => h2 he.symm
  have hsdfnotmem : softDeleteFieldOf cfg ∉ keysOf (baseFilterOf cfg) :=
    (lookupKey_eq_none_iff _ _).mp h8
  -- the two merged filters decompose as appends (keys are disjoint by h8)
  have hnotdel : pgNotDeletedFilter cfg
      = [(softDeleteFieldOf cfg, .ops { isNull := true })] := by
    simp [pgNotDeletedFilter, h1]
  have hdisj1 : pgBaseNotDeleted cfg
      = baseFilterOf cfg ++ [(softDeleteFieldOf cfg, .ops { isNull := true })] := by
    rw [pgBaseNotDeleted, hnotdel]
    apply mergeAssoc_disjoint
    · intro k hk
      have hkne : ¬ (softDeleteFieldOf cfg = k) := fun he => hsdfnotmem (he ▸ hk)
      simp [hkne]
    · intro k hk
      simp [keysOf] at hk
      subst hk
      exact h8
  have hdisj2 : mergeAssoc (baseFilterOf cfg) (pgDeletedFilter cfg)
      = baseFilterOf cfg ++ [(softDeleteFieldOf cfg, .ops { isNotNull := true })] := by
    rw [pgDeletedFilter]
    apply mergeAssoc_disjoint
    · intro k hk
      have hkne : ¬ (softDeleteFieldOf cfg = k) := fun he => hsdfnotmem (he ▸ hk)
      simp [hkne]
    · intro k hk
      simp [keysOf] at hk
      subst hk
      exact h8
  -- whitelist admits both merged filters
  have hallow1 : ∀ k ∈ keysOf (pgBaseNotDeleted cfg),
      fieldAllowedB (allowedOf cfg) k = true := by
    rw [hdisj1]
    intro k hk
    rw [keysOf, List.map_append] at hk
    rcases List.mem_append.mp hk with h | h
    · exact h6 k h
    · simp at h
      subst h
      exact h7
  have hallow2 : ∀ k ∈ keysOf (mergeAssoc (baseFilterOf cfg) (pgDeletedFilter cfg)),
      fieldAllowedB (allowedOf cfg) k = true := by
    rw [hdisj2]
    intro k hk
    rw [keysOf, List.map_append] at hk
    rcases List.mem_append.mp hk with h | h
    · exact h6 k h
    · simp at h
      subst h
      exact h7
  obtain ⟨p1, hp1, hpr1⟩ :=
    applyFilter_ok cfg.table (allowedOf cfg) (pgBaseNotDeleted cfg) hallow1
  obtain ⟨p2, hp2, hpr2⟩ :=
    applyFilter_ok cfg.table (allowedOf cfg)
      (mergeAssoc (baseFilterOf cfg) (pgDeletedFilter cfg)) hallow2
  obtain ⟨p0, hp0, hpr0⟩ :=
    applyFilter_ok cfg.table (allowedOf cfg) (baseFilterOf cfg) h6
  -- field reads on the three row versions
  have gpkDel : getField rowDel (pkOf cfg) = id := by
    rw [hDel, getField_setField, if_neg hsdfne, h3]
  have gpkRes : getField rowRes (pkOf cfg) = id := by
    rw [hRes, getField_setField, if_neg hsdfne, gpkDel]
  have gsdfDel : getField rowDel (softDeleteFieldOf cfg) = .vDate now2 := by
    rw [hDel, getField_setField, if_pos rfl]
  have gsdfRes : getField rowRes (softDeleteFieldOf cfg) = .vNull := by
    rw [hRes, getField_setField, if_pos rfl]
  -- the base (default) filter keeps matching all three versions
  have hbDel : filterMatches (baseFilterOf cfg) rowDel = true := by
    rw [hDel, filterMatches_setField_of_not_mem _ _ _ _ h8, h9]
  have hbRes : filterMatches (baseFilterOf cfg) rowRes = true := by
    rw [hRes, filterMatches_setField_of_not_mem _ _ _ _ h8, hbDel]
  have hsqlself : sqlScalarEq id id = true := sqlScalarEq_self id h4
  -- predicate evaluations
  have hmatch1row : p1 row = true := by
    rw [hpr1 row, hdisj1, filterMatches_append, h9, filterMatches_single,
      Bool.true_and]
    simp [filterValPred, opsPred_isNull_only, h5]
  have hmatch1Del : p1 rowDel = false := by
    rw [hpr1 rowDel, hdisj1, filterMatches_append, filterMatches_single]
    simp [filterValPred, opsPred_isNull_only, gsdfDel]
  have hmatch1Res : p1 rowRes = true := by
    rw [hpr1 rowRes, hdisj1, filterMatches_append, hbRes, filterMatches_single,
      Bool.true_and]
    simp [filterValPred, opsPred_isNull_only, gsdfRes]
  have hmatch2Del : p2 rowDel = true := by
    rw [hpr2 rowDel, hdisj2, filterMatches_append, hbDel, filterMatches_single,
      Bool.true_and]
    simp [filterValPred, opsPred_isNotNull_only, gsdfDel]
  -- no row of the original table carries the id
  have htblfalse : ∀ (q : Row → Bool), ∀ r ∈ tbl,
      (sqlScalarEq (getField r (pkOf cfg)) id && q r) = false := by
    intro q r hr
    rw [h10 r hr, Bool.false_and]
  have htblnil : ∀ (q : Row → Bool),
      tbl.filter (fun r => sqlScalarEq (getField r (pkOf cfg)) id && q r) = [] := by
    intro q
    exact List.filter_eq_nil_iff.mpr (fun r hr => by rw [htblfalse q r hr]; simp)
  have htblzero : ∀ (q : Row → Bool),
      tbl.countP (fun r => sqlScalarEq (getField r (pkOf cfg)) id && q r) = 0 := by
    intro q
    exact List.countP_eq_zero.mpr (fun r hr => by rw [htblfalse q r hr]; simp)
  -- the default (empty-caller-filter) read merge is the base+not-deleted filter
  have hrm : pgReadMergedFilter cfg ([] : Filter) = pgBaseNotDeleted cfg :=
    mergeAssoc_nil_right _
  -- the soft-deleted row is transparent to the default read predicate
  have hfilter2 : List.filter p1 (tbl ++ [rowDel]) = List.filter p1 tbl := by
    rw [List.filter_append]
    simp [hmatch1Del]
  have hcount2 : List.countP p1 (tbl ++ [rowDel]) = List.countP p1 tbl := by
    rw [List.countP_append]
    simp [hmatch1Del]
  refine ⟨by rw [hrow]; rfl, ?_, ?_, ?_, ?_, ?_, ?_, ?_, ?_, ?_, ?_, ?_, ?_, ?_,
    ?_, ?_, ?_⟩
  · -- findById after create
    unfold pgFindById
    rw [hp1]
    simp only [except_ok_bind]
    rw [List.filter_append, htblnil p1]
    simp [h3, hsqlself, hmatch1row]
  · -- softDelete succeeds and stamps only the created row
    unfold pgSoftDeleteOp
    rw [hp1]
    simp only [except_ok_bind]
    rw [List.countP_append, htblzero p1, List.map_append,
      map_if_eq_self tbl _ _ (htblfalse p1)]
    simp [h3, hsqlself, hmatch1row, hDel]
  · -- findById no longer sees the soft-deleted row
    unfold pgFindById
    rw [hp1]
    simp only [except_ok_bind]
    rw [List.filter_append, htblnil p1]
    simp [gpkDel, hsqlself, hmatch1Del]
  · -- findAll no longer sees the soft-deleted row
    unfold pgFindAll
    rw [hrm, hp1]
    simp only [except_ok_bind]
    rw [hfilter2]
  · -- findOne no longer sees the soft-deleted row
    unfold pgFindOne
    rw [hrm, hp1]
    simp only [except_ok_bind]
    rw [hfilter2]
  · -- findPage no longer sees the soft-deleted row
    intro page limit
    unfold pgFindPage
    rw [hrm, hp1]
    simp only [except_ok_bind]
    rw [hfilter2]
  · -- count does not count the soft-deleted row
    unfold pgCount
    rw [hrm, hp1]
    simp only [except_ok_bind]
    rw [hcount2]
  · -- exists does not see the soft-deleted row
    unfold pgExistsOp
    rw [hrm, hp1]
    simp only [except_ok_bind]
    rw [hfilter2]
  · -- select no longer sees the soft-deleted row
    intro fields
    unfold pgSelect
    rw [hrm, hp1]
    simp only [except_ok_bind]
    rw [hfilter2]
  · -- distinct no longer sees the soft-deleted row
    intro field
    unfold pgDistinct
    rw [hrm, hp1]
    simp only [except_ok_bind]
    rw [hfilter2]
  · -- the soft-deleted row is absent from findAll's result
    refine ⟨List.filter p1 tbl, ?_, ?_⟩
    · unfold pgFindAll
      rw [hrm, hp1]
      simp only [except_ok_bind]
      rw [hfilter2]
    · intro hmem
      have hcontra := (List.mem_filter.mp hmem).2
      rw [hmatch1Del] at hcontra
      exact Bool.noConfusion hcontra
  · -- restore clears the field and returns the row
    unfold pgRestoreOp
    rw [hp2]
    simp only [except_ok_bind, List.filter_append, List.map_append, htblnil p2]
    rw [map_if_eq_self tbl _ _ (htblfalse p2)]
    simp [gpkDel, hsqlself, hmatch2Del, hRes]
  · -- findById sees the restored row again
    unfold pgFindById
    rw [hp1]
    simp only [except_ok_bind]
    rw [List.filter_append, htblnil p1]
    simp [gpkRes, hsqlself, hmatch1Res]
  · -- findAllWithDeleted includes the freshly created row
    refine ⟨(tbl ++ [row]).filter p0, ?_, ?_⟩
    · unfold pgFindAllWithDeleted
      rw [mergeAssoc_nil_right, hp0]
      rfl
    · exact List.mem_filter.mpr
        ⟨List.mem_append_right _ (List.mem_singleton.mpr rfl), by rw [hpr0 row, h9]⟩
  · -- findAllWithDeleted includes the soft-deleted row
    refine ⟨(tbl ++ [rowDel]).filter p0, ?_, ?_⟩
    · unfold pgFindAllWithDeleted
      rw [mergeAssoc_nil_right, hp0]
      rfl
    · exact List.mem_filter.mpr
        ⟨List.mem_append_right _ (List.mem_singleton.mpr rfl),
         by rw [hpr0 rowDel, hbDel]⟩
  · -- findAllWithDeleted includes the restored row
    refine ⟨(tbl ++ [rowRes]).filter p0, ?_, ?_⟩
    · unfold pgFindAllWithDeleted
      rw [mergeAssoc_nil_right, hp0]
      rfl
    · exact List.mem_filter.mpr
        ⟨List.mem_append_right _ (List.mem_singleton.mpr rfl),
         by rw [hpr0 rowRes, hbRes]⟩

theorem C5_softDelete_lifecycle_witness :
    pgFindById softCfg [c5row] (Value.vInt 1) = .ok (some c5row) ∧
    pgSoftDeleteOp softCfg 9 [c5row] (Value.vInt 1) = .ok (true, [c5rowDel]) ∧
    pgFindById softCfg [c5rowDel] (Value.vInt 1) = .ok none ∧
    pgFindAll softCfg [c5rowDel] [] = pgFindAll softCfg [] [] ∧
    pgFindOne softCfg [c5rowDel] [] = pgFindOne softCfg [] [] ∧
    pgFindPage softCfg [c5rowDel] [] 1 10 = pgFindPage softCfg [] [] 1 10 ∧
    pgCount softCfg [c5rowDel] [] = pgCount softCfg [] [] ∧
    pgExistsOp softCfg [c5rowDel] [] = pgExistsOp softCfg [] [] ∧
    pgSelect softCfg [c5rowDel] [] ["name"] = pgSelect softCfg [] [] ["name"] ∧
    pgDistinct softCfg [c5rowDel] "name" [] = pgDistinct softCfg [] "name" [] ∧
    (∃ l, pgFindAll softCfg [c5rowDel] [] = .ok l ∧ c5rowDel ∉ l) ∧
    pgRestoreOp softCfg [c5rowDel] (Value.vInt 1) = .ok (some c5rowRes, [c5rowRes]) ∧
    pgFindById softCfg [c5rowRes] (Value.vInt 1) = .ok (some c5rowRes) ∧
    (∃ l, pgFindAllWithDeleted softCfg [c5rowDel] [] = .ok l ∧ c5rowDel ∈ l) := by
  have h := C5_softDelete_lifecycle softCfg [] c5row c5row c5rowDel c5rowRes
    (Value.vInt 1) 5 9 (by decide) (by decide) (by decide) (by decide) (by decide)
    (by decide) (by decide) (by decide) (by decide) (by decide) (by decide)
    (by decide) (by decide)
  obtain ⟨-, hb, hc, hd, he, hf, hg, hh, hi, hj, hk, hl, hm, hn, -, hp, -⟩ := h
  exact ⟨hb, hc, hd, he, hf, hg 1 10, hh, hi, hj ["name"], hk "name", hl, hm, hn, hp⟩

theorem C3_retry_classification_witness :
    (isRetryableError { code := some "40001" } = true ↔
      ∃ c ∈ pgRetryableCodes, (some "40001" : Option String) = some c) ∧
    (mongoWithTransaction (fun _ : Nat => false)
        (fun _ => (Except.error 7 : Except Nat Nat)) 3 =
      (.error 7, mongoAttemptEvents 0 false) ∧
    pgWithTransaction (fun _ : Nat => false)
        (fun _ => (Except.error 7 : Except Nat Nat)) 3 =
      (.error 7, pgAttemptEvents 0 false)) :=
  ⟨C3_retry_classification.1 { code := some "40001" },
   C3_retry_classification.2.2 Nat Nat (fun _ => false)
     (fun _ => Except.error 7) 7 3 rfl rfl⟩

end DatabaseKit
